import Mathlib

/-!
Shallow embedding of the DNS demo service (`src/ping/src/dns.rs`):
the hand-rolled Protobuf varint/tag reader, the `Uri` message walker,
the DNS name codec, the query packet reader, the record-table builder
and the response builder.  Byte strings are `List Nat` (each element a
byte value); Rust `u16`/`u32`/`u64` arithmetic is `Nat` with explicit
`% 2^w` where overflow can occur; Rust `i32` is `Int`; fallible Rust
functions returning `Result` become `Except String`.
The Rust `for`/`loop` constructs are embedded as fuel-indexed structural
recursions; every entry point passes fuel that is large enough, and the
fuel-exhaustion branches return the same error the source's exhausted
loop would.
-/

-- ---------------------------------------------------------------
-- Byte helpers (dns.rs lines 342-353)
-- ---------------------------------------------------------------

/-- Embeds `u16_to_bytes_be`: big-endian bytes of a 16-bit value
(the `% 256` projections perform the `u16` truncation of the Rust type). -/
def u16_to_bytes_be (val : Nat) : List Nat :=
  [val / 256 % 256, val % 256]

/-- Embeds `u32_to_bytes_be`: big-endian bytes of a 32-bit value. -/
def u32_to_bytes_be (val : Nat) : List Nat :=
  [val / 2 ^ 24 % 256, val / 2 ^ 16 % 256, val / 256 % 256, val % 256]

/-- Embeds `bytes_to_u16_be`: big-endian `u16` from the first two bytes
of a slice; error when fewer than two bytes remain. -/
def bytes_to_u16_be (bytes : List Nat) : Except String Nat :=
  match bytes with
  | b0 :: b1 :: _ => .ok (b0 * 256 + b1)
  | _ => .error "Byte slice too short for u16 conversion"

-- ---------------------------------------------------------------
-- Protobuf varint / tag reader (dns.rs lines 34-115)
-- ---------------------------------------------------------------

/-- Loop body of `read_varint`: `i` is the iteration index, `shift` the
accumulated bit shift, `value` the accumulator.  The Rust loop iterates
over the buffer's indices, so running out of list is the source's
"buffer too short" exit. -/
def readVarintAux : List Nat → Nat → Nat → Nat → Except String (Nat × List Nat)
  | [], _, _, _ => .error "Buffer too short to complete varint or varint malformed"
  | b :: rest, i, shift, value =>
    if i ≥ 10 then .error "Varint too long (max 10 bytes for u64)"
    else
      let value' := value ||| ((b &&& 0x7F) <<< shift) % 2 ^ 64
      if b &&& 0x80 = 0 then .ok (value', rest)
      else readVarintAux rest (i + 1) (shift + 7) value'

/-- Embeds `read_varint`: returns the decoded value and the rest of the
buffer (the Rust version advances the slice in place). -/
def read_varint (buffer : List Nat) : Except String (Nat × List Nat) :=
  readVarintAux buffer 0 0 0

/-- Embeds `read_tag`: splits a varint into field number and wire type.
Both are cast `as u32` in the source; the wire type already fits in
3 bits, and the field number wraps modulo 2^32. -/
def read_tag (buffer : List Nat) : Except String (Nat × Nat × List Nat) :=
  match read_varint buffer with
  | .error e => .error e
  | .ok (tagVal, rest) =>
    let wireType := tagVal &&& 0x07
    let fieldNumber := (tagVal >>> 3) % 2 ^ 32
    if fieldNumber = 0 then .error "Invalid field number 0 in tag"
    else .ok (fieldNumber, wireType, rest)

/-- Embeds `read_length_delimited`: varint length then that many bytes. -/
def read_length_delimited (buffer : List Nat) : Except String (List Nat × List Nat) :=
  match read_varint buffer with
  | .error e => .error e
  | .ok (len, rest) =>
    if rest.length < len then
      .error "Buffer too short for length-delimited data"
    else .ok (rest.take len, rest.drop len)

/-- Embeds `skip_field`: advances over one field of the given wire type. -/
def skip_field (buffer : List Nat) (wireType : Nat) : Except String (List Nat) :=
  if wireType = 0 then
    match read_varint buffer with
    | .error e => .error e
    | .ok (_, rest) => .ok rest
  else if wireType = 1 then
    if buffer.length < 8 then .error "Buffer too short to skip 64-bit field"
    else .ok (buffer.drop 8)
  else if wireType = 2 then
    match read_varint buffer with
    | .error e => .error e
    | .ok (len, rest) =>
      if rest.length < len then .error "Buffer too short to skip length-delimited field"
      else .ok (rest.drop len)
  else if wireType = 5 then
    if buffer.length < 4 then .error "Buffer too short to skip 32-bit field"
    else .ok (buffer.drop 4)
  else if wireType = 3 ∨ wireType = 4 then
    .error "Deprecated wire types (start and end group) not supported for skipping."
  else .error "Unknown wire type encountered"

-- ---------------------------------------------------------------
-- UTF-8 validity (Rust `String::from_utf8` / `str::from_utf8`)
-- ---------------------------------------------------------------

/-- One UTF-8 continuation byte. -/
def utf8Cont (b : Nat) : Bool := 0x80 ≤ b && b ≤ 0xBF

/-- Standard UTF-8 validity of a byte sequence, as checked by Rust's
`str::from_utf8`: no overlong encodings, no surrogates, max U+10FFFF. -/
def isValidUtf8 : List Nat → Bool
  | [] => true
  | b :: rest =>
    if b ≤ 0x7F then isValidUtf8 rest
    else if 0xC2 ≤ b && b ≤ 0xDF then
      match rest with
      | c1 :: r => utf8Cont c1 && isValidUtf8 r
      | [] => false
    else if b = 0xE0 then
      match rest with
      | c1 :: c2 :: r => (0xA0 ≤ c1 && c1 ≤ 0xBF) && utf8Cont c2 && isValidUtf8 r
      | _ => false
    else if (0xE1 ≤ b && b ≤ 0xEC) || b = 0xEE || b = 0xEF then
      match rest with
      | c1 :: c2 :: r => utf8Cont c1 && utf8Cont c2 && isValidUtf8 r
      | _ => false
    else if b = 0xED then
      match rest with
      | c1 :: c2 :: r => (0x80 ≤ c1 && c1 ≤ 0x9F) && utf8Cont c2 && isValidUtf8 r
      | _ => false
    else if b = 0xF0 then
      match rest with
      | c1 :: c2 :: c3 :: r =>
        (0x90 ≤ c1 && c1 ≤ 0xBF) && utf8Cont c2 && utf8Cont c3 && isValidUtf8 r
      | _ => false
    else if 0xF1 ≤ b && b ≤ 0xF3 then
      match rest with
      | c1 :: c2 :: c3 :: r => utf8Cont c1 && utf8Cont c2 && utf8Cont c3 && isValidUtf8 r
      | _ => false
    else if b = 0xF4 then
      match rest with
      | c1 :: c2 :: c3 :: r =>
        (0x80 ≤ c1 && c1 ≤ 0x8F) && utf8Cont c2 && utf8Cont c3 && isValidUtf8 r
      | _ => false
    else false

-- ---------------------------------------------------------------
-- Extracted configuration record and the `Uri` walker (dns.rs 12-166)
-- ---------------------------------------------------------------

/-- Embeds `ExtractedInfo`: tags, ip string (as UTF-8 bytes), `i32` port. -/
structure ExtractedInfo where
  tags : List (List Nat)
  ip : List Nat
  port : Int
deriving DecidableEq

/-- Rust `as i32` on a `u64` varint value: two's-complement narrowing. -/
def toInt32 (n : Nat) : Int :=
  if n % 2 ^ 32 < 2 ^ 31 then ((n % 2 ^ 32 : Nat) : Int)
  else ((n % 2 ^ 32 : Nat) : Int) - 2 ^ 32

/-- Loop body of `parse_uri_message_proto`: reads fields until the slice
is empty, recording the last `ip` (field 1, length-delimited, UTF-8
checked) and `port` (field 2, varint, narrowed to `i32`) seen; other
fields are skipped.  Fuel-indexed (each iteration consumes at least one
byte, so `data.length + 1` fuel never runs out). -/
def uriLoop : Nat → List Nat → Option (List Nat) → Option Int →
    Except String (Option (List Nat) × Option Int)
  | _, [], ipOpt, portOpt => .ok (ipOpt, portOpt)
  | 0, _ :: _, _, _ => .error "Uri: loop fuel exhausted"
  | fuel + 1, data, ipOpt, portOpt =>
    match read_tag data with
    | .error e => .error e
    | .ok (fieldNumber, wireType, rest) =>
      if fieldNumber = 1 then
        if wireType ≠ 2 then .error "Uri.ip: Expected wire type 2"
        else
          match read_length_delimited rest with
          | .error e => .error e
          | .ok (ipBytes, rest') =>
            if isValidUtf8 ipBytes then uriLoop fuel rest' (some ipBytes) portOpt
            else .error "Uri.ip: Invalid UTF-8 string"
      else if fieldNumber = 2 then
        if wireType ≠ 0 then .error "Uri.port: Expected wire type 0"
        else
          match read_varint rest with
          | .error e => .error e
          | .ok (portVal, rest') => uriLoop fuel rest' ipOpt (some (toInt32 portVal))
      else
        match skip_field rest wireType with
        | .error e => .error e
        | .ok rest' => uriLoop fuel rest' ipOpt portOpt

/-- Embeds `parse_uri_message_proto`: after the field loop, exactly one
`ExtractedInfo` (with a copy of the inherited tags) is appended to
`results` when both `ip` and `port` were seen; otherwise `results` is
returned unchanged. -/
def parse_uri_message_proto (data : List Nat) (tagsForThisUri : List (List Nat))
    (results : List ExtractedInfo) : Except String (List ExtractedInfo) :=
  match uriLoop (data.length + 1) data none none with
  | .error e => .error e
  | .ok (some ipStr, some portNum) => .ok (results ++ [⟨tagsForThisUri, ipStr, portNum⟩])
  | .ok _ => .ok results

-- ---------------------------------------------------------------
-- DNS name codec (dns.rs lines 358-440)
-- ---------------------------------------------------------------

/-- Loop body of `parse_qname_from_dns_packet`: reads labels at `pos`,
returning the label byte-strings in order and the number of bytes
consumed (terminating zero byte included).  Checks mirror the source's
order: offset bound, compression-pointer bits, zero terminator, 63-byte
bound, data bound, UTF-8 validity.  Fuel-indexed; the exhaustion branch
reuses the source's out-of-bounds error and is unreachable from the
entry point's fuel. -/
def parseQnameLoop : Nat → List Nat → Nat → Except String (List (List Nat) × Nat)
  | 0, _, _ => .error "Buffer too short while reading QNAME label length"
  | fuel + 1, packetData, pos =>
    if pos ≥ packetData.length then
      .error "Buffer too short while reading QNAME label length"
    else
      let labelLen := packetData.getD pos 0
      if labelLen &&& 0xC0 = 0xC0 then
        .error "DNS name compression pointers in QNAME are not supported by this parser."
      else if labelLen = 0 then .ok ([], 1)
      else if labelLen > 63 then .error "QNAME label too long (max 63)"
      else if pos + 1 + labelLen > packetData.length then
        .error "Buffer too short while reading QNAME label data"
      else
        let labelBytes := (packetData.drop (pos + 1)).take labelLen
        if isValidUtf8 labelBytes then
          match parseQnameLoop fuel packetData (pos + 1 + labelLen) with
          | .error e => .error e
          | .ok (parts, consumed) => .ok (labelBytes :: parts, 1 + labelLen + consumed)
        else .error "QNAME label contains invalid UTF-8 characters"

/-- Rust `Vec::join(".")` on the decoded label strings. -/
def joinDots : List (List Nat) → List Nat
  | [] => []
  | [l] => l
  | l :: ls => l ++ 46 :: joinDots ls

/-- Embeds `parse_qname_from_dns_packet`: decoded dotted name (root is
`"."`, byte 46) and bytes consumed from `startOffset`. -/
def parse_qname_from_dns_packet (packetData : List Nat) (startOffset : Nat) :
    Except String (List Nat × Nat) :=
  match parseQnameLoop (packetData.length + 1) packetData startOffset with
  | .error e => .error e
  | .ok (parts, total) =>
    if parts = [] ∧ total = 1 then .ok ([46], total)
    else .ok (joinDots parts, total)

/-- Rust `str::split('.')`: pieces between dots, empty pieces kept
(`n` separators yield `n + 1` pieces). -/
def splitDots : List Nat → List (List Nat)
  | [] => [[]]
  | b :: rest =>
    if b = 46 then [] :: splitDots rest
    else
      match splitDots rest with
      | p :: ps => (b :: p) :: ps
      | [] => [[b]]

/-- Encoding loop of `format_name_for_dns_packet` over the split labels:
`none` stands for the source's panic on a label longer than 63 bytes;
empty labels are skipped; otherwise a length byte then the label. -/
def encodeLabelSeq : List (List Nat) → Option (List Nat)
  | [] => some []
  | label :: labels =>
    if label.length > 63 then none
    else if label = [] then encodeLabelSeq labels
    else (encodeLabelSeq labels).map (fun rest => label.length :: (label ++ rest))

/-- Embeds `format_name_for_dns_packet`: label-sequence encoding of a
dotted name, terminated by a zero byte; root and empty name are the
single zero byte; `none` is the panic on an over-long label. -/
def format_name_for_dns_packet (name : List Nat) : Option (List Nat) :=
  if name = [46] ∨ name = [] then some [0]
  else (encodeLabelSeq (splitDots name)).map (fun e => e ++ [0])

-- ---------------------------------------------------------------
-- DNS query parsing (dns.rs lines 322-336, 448-506)
-- ---------------------------------------------------------------

/-- Embeds `DnsQuestion` (qname as UTF-8 bytes of the dotted string). -/
structure DnsQuestion where
  qname : List Nat
  qtype : Nat
  qclass : Nat
deriving DecidableEq

/-- Embeds `DnsQueryInfo`. -/
structure DnsQueryInfo where
  transaction_id : Nat
  question : DnsQuestion
deriving DecidableEq

/-- Embeds `parse_dns_query_packet`: header bound, QR bit, opcode,
QDCOUNT, QNAME, QTYPE/QCLASS bound, QCLASS=IN — checked in the
source's order. -/
def parse_dns_query_packet (packetBytes : List Nat) : Except String DnsQueryInfo :=
  if packetBytes.length < 12 then
    .error "DNS packet too short (less than 12 bytes for header)"
  else
    match bytes_to_u16_be packetBytes with
    | .error e => .error e
    | .ok transactionId =>
      match bytes_to_u16_be (packetBytes.drop 2) with
      | .error e => .error e
      | .ok flags =>
        match bytes_to_u16_be (packetBytes.drop 4) with
        | .error e => .error e
        | .ok qdCount =>
          if flags &&& 0x8000 ≠ 0 then
            .error "Received packet is not a DNS query (QR bit is set to 1)"
          else if (flags >>> 11) &&& 0x0F ≠ 0 then
            .error "Unsupported DNS Opcode"
          else if qdCount = 0 then
            .error "DNS query contains no questions (QDCOUNT is 0)"
          else if qdCount > 1 then
            .error "Multiple questions in a single DNS query are not supported."
          else
            match parse_qname_from_dns_packet packetBytes 12 with
            | .error e => .error e
            | .ok (qnameStr, qnameBytesLen) =>
              if packetBytes.length < 12 + qnameBytesLen + 4 then
                .error "DNS packet too short after QNAME (missing QTYPE and QCLASS)"
              else
                match bytes_to_u16_be (packetBytes.drop (12 + qnameBytesLen)) with
                | .error e => .error e
                | .ok qtype =>
                  match bytes_to_u16_be (packetBytes.drop (12 + qnameBytesLen + 2)) with
                  | .error e => .error e
                  | .ok qclass =>
                    if qclass ≠ 1 then
                      .error "Unsupported DNS query class (only QCLASS IN is supported)"
                    else .ok ⟨transactionId, ⟨qnameStr, qtype, qclass⟩⟩

-- ---------------------------------------------------------------
-- Record table and response builder (dns.rs lines 509-595, 603-636)
-- ---------------------------------------------------------------

/-- Embeds `std::net::Ipv4Addr`: the four octets. -/
structure Ipv4Addr where
  a : Nat
  b : Nat
  c : Nat
  d : Nat
deriving DecidableEq

/-- Embeds `Ipv4Addr::octets`. -/
def Ipv4Addr.octets (ip : Ipv4Addr) : List Nat := [ip.a, ip.b, ip.c, ip.d]

/-- Embeds `str::to_lowercase` (Unicode-aware) on UTF-8 bytes, exact
for the ASCII and Latin-1 ranges: ASCII letters A-Z are folded; the
two-byte sequences U+00C0 to U+00DE (lead byte 0xC3, trail byte 0x80
to 0x9E, excluding the caseless U+00D7) map to U+00E0 to U+00FE by
adding 0x20 to the trail byte, exactly as in the Unicode case table;
every other byte is preserved (the C2 block U+0080 to U+00BF has no
uppercase letters).  Code points above U+00FF with lowercase mappings
are outside the modelled alphabet. -/
def rustToLowercase : List Nat → List Nat
  | [] => []
  | [b] =>
    if b = 195 then [195]
    else if 65 ≤ b ∧ b ≤ 90 then [b + 32]
    else [b]
  | b :: c :: rest =>
    if b = 195 then
      if 128 ≤ c ∧ c ≤ 158 ∧ c ≠ 151 then 195 :: (c + 32) :: rustToLowercase rest
      else 195 :: rustToLowercase (c :: rest)
    else if 65 ≤ b ∧ b ≤ 90 then (b + 32) :: rustToLowercase (c :: rest)
    else b :: rustToLowercase (c :: rest)

/-- Modelled from the spec: "convert to lowercase using ASCII case
folding" — the ASCII-only fold the spec describes for the key
normalisation, to be compared with the lowercasing the source
performs. -/
def specAsciiCaseFold (s : List Nat) : List Nat :=
  s.map (fun byte => if 65 ≤ byte ∧ byte ≤ 90 then byte + 32 else byte)

/-- Embeds `str::strip_suffix('.')` followed by `unwrap_or(original)`:
at most one trailing dot removed. -/
def stripDotSuffix (s : List Nat) : List Nat :=
  if s.getLast? = some 46 then s.dropLast else s

/-- The record table: association list, newest insertion first (mirrors
`HashMap::insert` overwrite semantics through `tableGet`). -/
abbrev RecordTable := List (List Nat × (Ipv4Addr × Nat))

/-- `HashMap::insert` with last-write-wins visibility via `tableGet`. -/
def tableInsert (m : RecordTable) (k : List Nat) (v : Ipv4Addr × Nat) : RecordTable :=
  (k, v) :: m

/-- `HashMap::get`: the most recently inserted value for the key. -/
def tableGet (m : RecordTable) (k : List Nat) : Option (Ipv4Addr × Nat) :=
  m.lookup k

/-- ASCII decimal digit test. -/
def isDigit (byte : Nat) : Bool := 48 ≤ byte && byte ≤ 57

/-- One dotted-quad octet per Rust's `Ipv4Addr` grammar: 1–3 decimal
digits, no leading zero, value at most 255. -/
def parseOctet (p : List Nat) : Option Nat :=
  if p = [] then none
  else if ¬ p.all isDigit then none
  else if p.length > 3 then none
  else if p.headD 0 = 48 ∧ p.length > 1 then none
  else
    let v := p.foldl (fun acc byte => acc * 10 + (byte - 48)) 0
    if v > 255 then none else some v

/-- Embeds `str::parse::<Ipv4Addr>`: exactly four dot-separated octets
spanning the whole string. -/
def parseIpv4 (s : List Nat) : Option Ipv4Addr :=
  match splitDots s with
  | [p0, p1, p2, p3] =>
    match parseOctet p0, parseOctet p1, parseOctet p2, parseOctet p3 with
    | some a, some b, some c, some d => some ⟨a, b, c, d⟩
    | _, _, _, _ => none
  | _ => none

/-- Rust `as u16` on an `i32`: two's-complement narrowing (Lean's `Int`
`%` already yields the non-negative representative). -/
def intToU16 (i : Int) : Nat := (i % 65536).toNat

/-- Embeds the key normalisation of `start_dns_server` (lines 622-625):
strip at most one trailing dot, then lowercase. -/
def normalized_dns_key (tagString : List Nat) : List Nat :=
  rustToLowercase (stripDotSuffix tagString)

/-- Embeds the lookup-key normalisation of `build_dns_response_packet`
(lines 520-523): strip at most one trailing dot, then lowercase. -/
def lookup_qname_key (qname : List Nat) : List Nat :=
  rustToLowercase (stripDotSuffix qname)

/-- Embeds the record-table-building prefix of `start_dns_server`
(lines 605-636): skip entries whose ip does not parse, narrow the port
to `u16`, and insert every normalised tag (overwriting duplicates). -/
def build_record_table (configData : List ExtractedInfo) : RecordTable :=
  configData.foldl (fun m configItem =>
    match parseIpv4 configItem.ip with
    | none => m
    | some ipAddrObj =>
      let portNumber := intToU16 configItem.port
      configItem.tags.foldl (fun m' tagString =>
        tableInsert m' (normalized_dns_key tagString) (ipAddrObj, portNumber)) m) []

/-- Decimal rendering helper, fuel-indexed (`n` itself is enough fuel). -/
def natToDecimalAux : Nat → Nat → List Nat
  | 0, n => [48 + n % 10]
  | fuel + 1, n => if n < 10 then [48 + n] else natToDecimalAux fuel (n / 10) ++ [48 + n % 10]

/-- ASCII decimal digits of a natural number (Rust `Display` of integers). -/
def natToDecimal (n : Nat) : List Nat := natToDecimalAux n n

/-- Rust `Display` of `Ipv4Addr`: dotted-quad decimal. -/
def ipv4Display (ip : Ipv4Addr) : List Nat :=
  natToDecimal ip.a ++ 46 :: natToDecimal ip.b ++ 46 :: natToDecimal ip.c ++ 46 :: natToDecimal ip.d

/-- The `format!("{}:{}", ip_address, port_number)` TXT payload string. -/
def txtRecordString (ip : Ipv4Addr) (port : Nat) : List Nat :=
  ipv4Display ip ++ 58 :: natToDecimal port

/-- Embeds `build_dns_response_packet`.  `none` propagates the name
codec's panic (`format_name_for_dns_packet`); otherwise the result is
the exact response byte vector: header (transaction id, flags
`0x8400 | rcode`, QDCOUNT=1, ANCOUNT, NSCOUNT=0, ARCOUNT=0), the
re-encoded question, then the answer payload built per branch exactly
as in the source. -/
def build_dns_response_packet (queryInfo : DnsQueryInfo) (dnsDataMap : RecordTable) :
    Option (List Nat) :=
  let lookupQnameKey := lookup_qname_key queryInfo.question.qname
  let branch : Option (Nat × Nat × List Nat) :=
    match tableGet dnsDataMap lookupQnameKey with
    | some (ipAddress, portNumber) =>
      (format_name_for_dns_packet queryInfo.question.qname).map (fun qnameBytesForRR =>
        if queryInfo.question.qtype = 1 then
          (1, 0, qnameBytesForRR ++ u16_to_bytes_be 1 ++ u16_to_bytes_be 1 ++
                 u32_to_bytes_be 60 ++ u16_to_bytes_be 4 ++ ipAddress.octets)
        else if queryInfo.question.qtype = 16 then
          let txtRecordDataString := txtRecordString ipAddress portNumber
          if txtRecordDataString.length > 255 then (0, 2, [])
          else
            (1, 0, qnameBytesForRR ++ u16_to_bytes_be 16 ++ u16_to_bytes_be 1 ++
                   u32_to_bytes_be 60 ++ u16_to_bytes_be (1 + txtRecordDataString.length) ++
                   (txtRecordDataString.length % 256) :: txtRecordDataString)
        else (0, 0, []))
    | none => some (0, 3, [])
  match branch with
  | none => none
  | some (answerRecordCount, responseCode, answerPayload) =>
    match format_name_for_dns_packet queryInfo.question.qname with
    | none => none
    | some qnameBytesOriginalQuery =>
      some (u16_to_bytes_be queryInfo.transaction_id ++
            u16_to_bytes_be (0x8000 ||| 0x0400 ||| (responseCode &&& 0x000F)) ++
            u16_to_bytes_be 1 ++
            u16_to_bytes_be answerRecordCount ++
            u16_to_bytes_be 0 ++
            u16_to_bytes_be 0 ++
            qnameBytesOriginalQuery ++
            u16_to_bytes_be queryInfo.question.qtype ++
            u16_to_bytes_be queryInfo.question.qclass ++
            answerPayload)

-- ---------------------------------------------------------------
-- Proof-side helper definitions (wire forms and field accessors)
-- ---------------------------------------------------------------

/-- Wire form of a label list: length byte, label bytes, zero terminator. -/
def encodeParts : List (List Nat) → List Nat
  | [] => [0]
  | l :: ls => l.length :: (l ++ encodeParts ls)

/-- Wire length of a label list. -/
def sumLen : List (List Nat) → Nat
  | [] => 1
  | l :: ls => 1 + l.length + sumLen ls

/-- Big-endian u16 field of a packet at a byte offset (for stating
header conditions). -/
def dnsHdrU16 (packet : List Nat) (off : Nat) : Nat :=
  packet.getD off 0 * 256 + packet.getD (off + 1) 0

/-- Response layout: header (transaction id; flags `0x8400 | rcode`;
QDCOUNT=1; ANCOUNT; NSCOUNT=0; ARCOUNT=0), echoed question, answer payload. -/
def dnsResponseBytes (info : DnsQueryInfo) (an rc : Nat) (nb payload : List Nat) : List Nat :=
  u16_to_bytes_be info.transaction_id ++
  u16_to_bytes_be (0x8000 ||| 0x0400 ||| (rc &&& 0x000F)) ++
  u16_to_bytes_be 1 ++ u16_to_bytes_be an ++ u16_to_bytes_be 0 ++ u16_to_bytes_be 0 ++
  nb ++ u16_to_bytes_be info.question.qtype ++ u16_to_bytes_be info.question.qclass ++ payload

/-- Two bytes equal up to ASCII case. -/
def asciiCaseEqByte (a b : Nat) : Bool :=
  a == b || (65 ≤ a && a ≤ 90 && b == a + 32) || (65 ≤ b && b ≤ 90 && a == b + 32)

/-- Two byte strings equal up to ASCII case. -/
def asciiCaseEq : List Nat → List Nat → Bool
  | [], [] => true
  | a :: as, b :: bs => asciiCaseEqByte a b && asciiCaseEq as bs
  | _, _ => false

-- ---------------------------------------------------------------
-- Reference varint encoder (spec §8, glossary)
-- ---------------------------------------------------------------

/-- Modelled from the spec: the standard base-128 varint reference
encoder ("low-order 7 bits per byte, MSB as continuation flag"),
the second side of the encode-then-decode law of §8.  Fuel-indexed;
10 bytes cover every `u64` value. -/
def encodeVarintAux : Nat → Nat → List Nat
  | 0, v => [v % 128]
  | fuel + 1, v => if v < 128 then [v] else (v % 128 + 128) :: encodeVarintAux fuel (v / 128)

/-- Reference varint encoding of a `u64` value. -/
def encodeVarint (v : Nat) : List Nat := encodeVarintAux 10 v

theorem and_127_eq_mod (b : Nat) : b &&& 127 = b % 128 := by
  have h := Nat.and_pow_two_sub_one_eq_mod b 7
  norm_num at h
  exact h

theorem and_128_of_lt (v : Nat) (h : v < 128) : v &&& 128 = 0 := by
  have h2 := Nat.and_two_pow v 7
  norm_num at h2
  have h3 : v.testBit 7 = false := by
    rw [Nat.testBit_to_div_mod]
    simp [Nat.div_eq_of_lt h]
  rw [h2, h3]
  simp

theorem and_128_cont (v : Nat) (h : v < 128) : (v + 128) &&& 128 ≠ 0 := by
  have h2 := Nat.and_two_pow (v + 128) 7
  norm_num at h2
  have h3 : (v + 128).testBit 7 = true := by
    rw [Nat.testBit_to_div_mod]
    have h4 : (v + 128) / 128 = 1 := by omega
    simp [h4]
  rw [h2, h3]
  simp

theorem chunk_or (v s : Nat) :
    (((v % 128) <<< s) % 2 ^ 64) ||| (((v / 128) <<< (s + 7)) % 2 ^ 64) =
      (v <<< s) % 2 ^ 64 := by
  apply Nat.eq_of_testBit_eq
  intro j
  have hv : v / 128 = v >>> 7 := by simp [Nat.shiftRight_eq_div_pow]
  have hm : v % 128 = v % 2 ^ 7 := by norm_num
  rw [hv, hm]
  simp only [Nat.testBit_or, Nat.testBit_mod_two_pow, Nat.testBit_shiftLeft,
    Nat.testBit_shiftRight, ge_iff_le]
  by_cases h1 : j < 64
  · by_cases h2 : s ≤ j
    · by_cases h3 : j - s < 7
      · have h4 : ¬ (s + 7 ≤ j) := by omega
        simp [h1, h2, h3, h4]
      · have h4 : s + 7 ≤ j := by omega
        have h5 : 7 + (j - (s + 7)) = j - s := by omega
        simp [h1, h2, h4, h5]
    · have h4 : ¬ (s + 7 ≤ j) := by omega
      simp [h2, h4]
  · simp [h1]

theorem readVarint_encode_aux :
    ∀ fuel v i acc rest, v < 2 ^ (7 * (10 - i)) → i ≤ 9 → 10 - i ≤ fuel →
    readVarintAux (encodeVarintAux fuel v ++ rest) i (7 * i) acc =
      .ok (acc ||| ((v <<< (7 * i)) % 2 ^ 64), rest) := by
  intro fuel
  induction fuel with
  | zero => intro v i acc rest h1 h2 h3; omega
  | succ fuel ih =>
    intro v i acc rest h1 h2 h3
    by_cases hv : v < 128
    · simp only [encodeVarintAux, if_pos hv, List.cons_append, readVarintAux]
      rw [if_neg (by omega)]
      have h4 : v &&& 127 = v := by
        rw [and_127_eq_mod, Nat.mod_eq_of_lt hv]
      simp only [show (0x7F : Nat) = 127 from rfl, show (0x80 : Nat) = 128 from rfl, h4]
      rw [if_pos (and_128_of_lt v hv)]
      simp
    · simp only [encodeVarintAux, if_neg hv, List.cons_append, readVarintAux]
      rw [if_neg (by omega)]
      have hmlt : v % 128 < 128 := Nat.mod_lt _ (by norm_num)
      have h4 : (v % 128 + 128) &&& 127 = v % 128 := by
        rw [and_127_eq_mod, Nat.add_mod_right, Nat.mod_eq_of_lt hmlt]
      simp only [show (0x7F : Nat) = 127 from rfl, show (0x80 : Nat) = 128 from rfl, h4]
      rw [if_neg (and_128_cont (v % 128) hmlt)]
      have h7 : 7 * i + 7 = 7 * (i + 1) := by ring
      have hi9 : i + 1 ≤ 9 := by
        by_contra hcon
        have hi9' : i = 9 := by omega
        subst hi9'
        norm_num at h1
        omega
      have hdlt : v / 128 < 2 ^ (7 * (10 - (i + 1))) := by
        rw [Nat.div_lt_iff_lt_mul (by norm_num : (0:Nat) < 128)]
        have he : 2 ^ (7 * (10 - (i + 1))) * 128 = 2 ^ (7 * (10 - i)) := by
          have h10 : 7 * (10 - i) = 7 * (10 - (i + 1)) + 7 := by omega
          rw [h10, pow_add]
          norm_num
        rw [he]
        exact h1
      rw [h7, ih (v / 128) (i + 1) _ rest hdlt hi9 (by omega)]
      congr 2
      rw [Nat.or_assoc, ← h7, chunk_or]

theorem readVarint_allCont :
    ∀ (l : List Nat) i shift acc, (∀ b ∈ l.take (10 - i), b &&& 128 ≠ 0) →
    10 - i ≤ l.length → ∃ e, readVarintAux l i shift acc = .error e := by
  intro l
  induction l with
  | nil => intro i shift acc h1 h2; exact ⟨_, rfl⟩
  | cons b rest ih =>
    intro i shift acc h1 h2
    by_cases hi : i ≥ 10
    · refine ⟨"Varint too long (max 10 bytes for u64)", ?_⟩
      simp only [readVarintAux]
      rw [if_pos hi]
    · have hk : 10 - i = (10 - (i + 1)) + 1 := by omega
      have hb : b &&& 128 ≠ 0 := by
        apply h1
        rw [hk, List.take_succ_cons]
        exact List.mem_cons_self b _
      have hs1 : ∀ x ∈ rest.take (10 - (i + 1)), x &&& 128 ≠ 0 := by
        intro x hx
        apply h1
        rw [hk, List.take_succ_cons]
        exact List.mem_cons_of_mem b hx
      have hs2 : 10 - (i + 1) ≤ rest.length := by
        simp only [List.length_cons] at h2
        omega
      obtain ⟨e, he⟩ := ih (i + 1) (shift + 7) (acc ||| ((b &&& 127) <<< shift) % 2 ^ 64) hs1 hs2
      refine ⟨e, ?_⟩
      simp only [readVarintAux, show (0x7F : Nat) = 127 from rfl,
        show (0x80 : Nat) = 128 from rfl]
      rw [if_neg hi, if_neg hb]
      exact he

theorem varint_roundtrip_statement (v : Nat) (hv : v < 2 ^ 64) (rest : List Nat) :
    read_varint (encodeVarint v ++ rest) = .ok (v, rest) := by
  unfold read_varint encodeVarint
  have h70 : (2 : Nat) ^ 64 ≤ 2 ^ (7 * (10 - 0)) := by norm_num
  have h := readVarint_encode_aux 10 v 0 0 rest
    (lt_of_lt_of_le hv h70) (by norm_num) (by norm_num)
  simp only [Nat.mul_zero] at h
  rw [h]
  have hval : (0 : Nat) ||| v <<< 0 % 2 ^ 64 = v := by
    rw [Nat.zero_or, Nat.shiftLeft_zero, Nat.mod_eq_of_lt hv]
  rw [hval]

/-- C7: decoding the reference base-128 LSB-first varint encoding of any
`u64` value with `read_varint` yields the value back and consumes exactly
the encoding's bytes, and `read_varint` fails on every buffer whose
first 10 bytes all carry the continuation bit. -/
theorem varint_roundtrip_and_overlong_failure
    (v : Nat) (rest buffer : List Nat) (hv : v < 2 ^ 64)
    (hb : ∀ b ∈ buffer.take 10, b &&& 128 ≠ 0) (hlen : 10 ≤ buffer.length) :
    read_varint (encodeVarint v ++ rest) = .ok (v, rest) ∧
      ∃ e, read_varint buffer = .error e := by
  constructor
  · exact varint_roundtrip_statement v hv rest
  · unfold read_varint
    exact readVarint_allCont buffer 0 0 0 (by simpa using hb) (by simpa using hlen)

theorem varint_roundtrip_and_overlong_failure_witness :
    read_varint (encodeVarint 300 ++ [7, 8]) = .ok (300, [7, 8]) ∧
      ∃ e, read_varint [128, 128, 128, 128, 128, 128, 128, 128, 128, 128] = .error e :=
  varint_roundtrip_and_overlong_failure 300 [7, 8]
    [128, 128, 128, 128, 128, 128, 128, 128, 128, 128]
    (by norm_num) (by decide) (by decide)



theorem parseQnameLoop_ok :
    ∀ fuel (packetData : List Nat) pos parts total,
    parseQnameLoop fuel packetData pos = .ok (parts, total) →
    total = sumLen parts ∧ pos + total ≤ packetData.length ∧
      (packetData.drop pos).take total = encodeParts parts ∧
      ∀ l ∈ parts, l ≠ [] ∧ l.length ≤ 63 := by
  intro fuel
  induction fuel with
  | zero => intro p pos parts total h; exact absurd h (by simp [parseQnameLoop])
  | succ fuel ih =>
    intro packetData pos parts total h
    simp only [parseQnameLoop] at h
    by_cases h0 : pos ≥ packetData.length
    · rw [if_pos h0] at h; exact absurd h (by simp)
    rw [if_neg h0] at h
    by_cases h1 : packetData.getD pos 0 &&& 0xC0 = 0xC0
    · rw [if_pos h1] at h; exact absurd h (by simp)
    rw [if_neg h1] at h
    have hpos : pos < packetData.length := by omega
    have hgd : packetData.getD pos 0 = packetData[pos] := by
      simp [List.getD_eq_getElem?_getD, List.getElem?_eq_getElem hpos]
    by_cases h2 : packetData.getD pos 0 = 0
    · rw [if_pos h2] at h
      simp only [Except.ok.injEq, Prod.mk.injEq] at h
      obtain ⟨hp, ht⟩ := h
      subst hp; subst ht
      refine ⟨rfl, by omega, ?_, by simp⟩
      rw [List.drop_eq_getElem_cons hpos, List.take_succ_cons, List.take_zero]
      rw [← hgd, h2]
      rfl
    rw [if_neg h2] at h
    by_cases h3 : packetData.getD pos 0 > 63
    · rw [if_pos h3] at h; exact absurd h (by simp)
    rw [if_neg h3] at h
    by_cases h4 : pos + 1 + packetData.getD pos 0 > packetData.length
    · rw [if_pos h4] at h; exact absurd h (by simp)
    rw [if_neg h4] at h
    by_cases h5 : isValidUtf8 ((packetData.drop (pos + 1)).take (packetData.getD pos 0)) = true
    · rw [if_pos h5] at h
      cases hrec : parseQnameLoop fuel packetData (pos + 1 + packetData.getD pos 0) with
      | error e => rw [hrec] at h; exact absurd h (by simp)
      | ok pr =>
        obtain ⟨parts', consumed⟩ := pr
        rw [hrec] at h
        simp only [Except.ok.injEq, Prod.mk.injEq] at h
        obtain ⟨hp, ht⟩ := h
        subst hp; subst ht
        obtain ⟨iht, ihb, ihe, ihl⟩ := ih packetData _ parts' consumed hrec
        set lablen := packetData.getD pos 0 with hll
        set labelBytes := (packetData.drop (pos + 1)).take lablen with hlb
        have hlblen : labelBytes.length = lablen := by
          rw [hlb]
          simp only [List.length_take, List.length_drop]
          omega
        refine ⟨?_, by omega, ?_, ?_⟩
        · simp [sumLen, iht, hlblen]
        · have hta : (1 + lablen + consumed) = (lablen + consumed) + 1 := by omega
          rw [List.drop_eq_getElem_cons hpos, hta, List.take_succ_cons, List.take_add,
            List.drop_drop]
          simp only [encodeParts]
          congr 1
          · rw [← hgd, hlblen]
          · rw [ihe]
        · intro l hl
          rcases List.mem_cons.mp hl with hl | hl
          · subst hl
            constructor
            · intro hnil
              rw [hnil] at hlblen
              simp at hlblen
              omega
            · omega
          · exact ihl l hl
    · rw [if_neg h5] at h; exact absurd h (by simp)

theorem splitDots_ne_nil : ∀ s : List Nat, splitDots s ≠ [] := by
  intro s
  cases s with
  | nil => simp [splitDots]
  | cons b rest =>
    simp only [splitDots]
    by_cases hb : b = 46
    · simp [hb]
    · rw [if_neg hb]
      cases h : splitDots rest with
      | nil => simp
      | cons p ps => simp

theorem splitDots_append_dot (a b : List Nat) :
    splitDots (a ++ 46 :: b) = splitDots a ++ splitDots b := by
  induction a with
  | nil => simp [splitDots]
  | cons x xs ih =>
    simp only [List.cons_append, splitDots, List.append_eq]
    by_cases hx : x = 46
    · simp [hx, ih]
    · rw [if_neg hx, if_neg hx, ih]
      cases h : splitDots xs with
      | nil => exact absurd h (splitDots_ne_nil xs)
      | cons p ps => simp

theorem splitDots_length_le (s : List Nat) : ∀ p ∈ splitDots s, p.length ≤ s.length := by
  induction s with
  | nil =>
    intro p hp
    simp [splitDots] at hp
    simp [hp]
  | cons b rest ih =>
    intro p hp
    simp only [splitDots] at hp
    by_cases hb : b = 46
    · rw [if_pos hb] at hp
      rcases List.mem_cons.mp hp with h | h
      · simp [h]
      · have := ih p h
        simp only [List.length_cons]
        omega
    · rw [if_neg hb] at hp
      cases hs : splitDots rest with
      | nil => exact absurd hs (splitDots_ne_nil rest)
      | cons q qs =>
        rw [hs] at hp
        rcases List.mem_cons.mp hp with h | h
        · subst h
          have hq : q.length ≤ rest.length := ih q (by rw [hs]; exact List.mem_cons_self q qs)
          simp only [List.length_cons]
          omega
        · have := ih p (by rw [hs]; exact List.mem_cons_of_mem q h)
          simp only [List.length_cons]
          omega

theorem splitDots_no_dot (p : List Nat) (hd : ¬ 46 ∈ p) (hn : p ≠ []) :
    splitDots p = [p] := by
  induction p with
  | nil => exact absurd rfl hn
  | cons x xs ih =>
    have hx : x ≠ 46 := by
      intro h
      exact hd (by rw [h]; exact List.mem_cons_self 46 xs)
    simp only [splitDots, if_neg hx]
    by_cases hxs : xs = []
    · subst hxs
      simp [splitDots]
    · rw [ih (fun h => hd (List.mem_cons_of_mem x h)) hxs]

theorem joinDots_cons (p : List Nat) (ps : List (List Nat)) (h : ps ≠ []) :
    joinDots (p :: ps) = p ++ 46 :: joinDots ps := by
  cases ps with
  | nil => exact absurd rfl h
  | cons q qs => rfl

theorem splitDots_joinDots (parts : List (List Nat)) (h : parts ≠ []) :
    splitDots (joinDots parts) = parts.flatMap splitDots := by
  induction parts with
  | nil => exact absurd rfl h
  | cons p ps ih =>
    by_cases hps : ps = []
    · subst hps
      simp [joinDots]
    · rw [joinDots_cons p ps hps, splitDots_append_dot, ih hps]
      simp

theorem encodeLabelSeq_isSome (labels : List (List Nat))
    (h : ∀ l ∈ labels, l.length ≤ 63) : ∃ r, encodeLabelSeq labels = some r := by
  induction labels with
  | nil => exact ⟨[], rfl⟩
  | cons l ls ih =>
    obtain ⟨r, hr⟩ := ih (fun x hx => h x (List.mem_cons_of_mem l hx))
    have h63 : ¬ l.length > 63 := by
      have := h l (List.mem_cons_self l ls)
      omega
    by_cases hl : l = []
    · refine ⟨r, ?_⟩
      simp only [encodeLabelSeq, if_neg h63, if_pos hl]
      exact hr
    · refine ⟨l.length :: (l ++ r), ?_⟩
      simp only [encodeLabelSeq, if_neg h63, if_neg hl, hr]
      rfl

theorem encodeLabelSeq_clean (parts : List (List Nat))
    (h : ∀ l ∈ parts, l ≠ [] ∧ l.length ≤ 63) :
    ∃ body, encodeLabelSeq parts = some body ∧ body ++ [0] = encodeParts parts := by
  induction parts with
  | nil => exact ⟨[], rfl, rfl⟩
  | cons l ls ih =>
    obtain ⟨body, hb, he⟩ := ih (fun x hx => h x (List.mem_cons_of_mem l hx))
    obtain ⟨hne, h63⟩ := h l (List.mem_cons_self l ls)
    refine ⟨l.length :: (l ++ body), ?_, ?_⟩
    · simp only [encodeLabelSeq, if_neg (by omega : ¬ l.length > 63), if_neg hne, hb]
      rfl
    · simp only [encodeParts, List.cons_append, List.append_assoc, he]

theorem flatMap_splitDots_id (l : List (List Nat)) (h : ∀ p ∈ l, splitDots p = [p]) :
    l.flatMap splitDots = l := by
  induction l with
  | nil => rfl
  | cons p ps ih =>
    rw [List.flatMap_cons, h p (List.mem_cons_self p ps),
      ih (fun x hx => h x (List.mem_cons_of_mem p hx))]
    rfl

theorem joinDots_eq_append (p : List Nat) (ps : List (List Nat)) :
    ∃ t, joinDots (p :: ps) = p ++ t := by
  cases ps with
  | nil => exact ⟨[], by simp [joinDots]⟩
  | cons q qs => exact ⟨46 :: joinDots (q :: qs), rfl⟩

theorem format_name_of_clean_parts (parts : List (List Nat))
    (h : ∀ l ∈ parts, l ≠ [] ∧ l.length ≤ 63) (hd : ∀ l ∈ parts, ¬ 46 ∈ l)
    (hne : parts ≠ []) :
    format_name_for_dns_packet (joinDots parts) = some (encodeParts parts) := by
  obtain ⟨p, ps, rfl⟩ : ∃ p ps, parts = p :: ps := by
    cases parts with
    | nil => exact absurd rfl hne
    | cons p ps => exact ⟨p, ps, rfl⟩
  obtain ⟨t, hj⟩ := joinDots_eq_append p ps
  have hpne : p ≠ [] := (h p (List.mem_cons_self p ps)).1
  have hpd : ¬ 46 ∈ p := hd p (List.mem_cons_self p ps)
  have hn1 : joinDots (p :: ps) ≠ [46] := by
    rw [hj]
    intro hcon
    cases p with
    | nil => exact hpne rfl
    | cons x xs =>
      simp only [List.cons_append, List.cons.injEq] at hcon
      apply hpd
      rw [hcon.1]
      exact List.mem_cons_self 46 xs
  have hn2 : joinDots (p :: ps) ≠ [] := by
    rw [hj]
    intro hcon
    cases p with
    | nil => exact hpne rfl
    | cons x xs => simp at hcon
  rw [format_name_for_dns_packet, if_neg (by tauto)]
  rw [splitDots_joinDots _ hne, flatMap_splitDots_id _ ?_]
  · obtain ⟨body, hb, he⟩ := encodeLabelSeq_clean _ h
    rw [hb]
    show some (body ++ [0]) = some (encodeParts (p :: ps))
    rw [he]
  · intro q hq
    exact splitDots_no_dot q (hd q hq) ((h q hq).1)


theorem bytes_to_u16_be_drop (packet : List Nat) (off : Nat) (h : off + 2 ≤ packet.length) :
    bytes_to_u16_be (packet.drop off) = .ok (dnsHdrU16 packet off) := by
  have h1 : off < packet.length := by omega
  have h2 : off + 1 < packet.length := by omega
  rw [List.drop_eq_getElem_cons h1, List.drop_eq_getElem_cons h2]
  simp [bytes_to_u16_be, dnsHdrU16, List.getD_eq_getElem?_getD,
    List.getElem?_eq_getElem h1, List.getElem?_eq_getElem h2]

theorem parse_query_shape (packetBytes : List Nat) (info : DnsQueryInfo)
    (h : parse_dns_query_packet packetBytes = .ok info) :
    12 ≤ packetBytes.length ∧
    info.transaction_id = dnsHdrU16 packetBytes 0 ∧
    dnsHdrU16 packetBytes 2 &&& 0x8000 = 0 ∧
    (dnsHdrU16 packetBytes 2 >>> 11) &&& 0x0F = 0 ∧
    dnsHdrU16 packetBytes 4 = 1 ∧
    ∃ qlen, parse_qname_from_dns_packet packetBytes 12 = .ok (info.question.qname, qlen) ∧
      12 + qlen + 4 ≤ packetBytes.length ∧
      info.question.qtype = dnsHdrU16 packetBytes (12 + qlen) ∧
      info.question.qclass = dnsHdrU16 packetBytes (12 + qlen + 2) ∧
      info.question.qclass = 1 := by
  rw [parse_dns_query_packet] at h
  by_cases h12 : packetBytes.length < 12
  · rw [if_pos h12] at h; exact absurd h (by simp)
  rw [if_neg h12] at h
  have hE0 : bytes_to_u16_be packetBytes = .ok (dnsHdrU16 packetBytes 0) := by
    have hd := bytes_to_u16_be_drop packetBytes 0 (by omega)
    simpa using hd
  rw [hE0, bytes_to_u16_be_drop packetBytes 2 (by omega),
    bytes_to_u16_be_drop packetBytes 4 (by omega)] at h
  dsimp only at h
  by_cases hqr : dnsHdrU16 packetBytes 2 &&& 32768 ≠ 0
  · rw [if_pos hqr] at h; exact absurd h (by simp)
  rw [if_neg hqr] at h
  by_cases hop : dnsHdrU16 packetBytes 2 >>> 11 &&& 15 ≠ 0
  · rw [if_pos hop] at h; exact absurd h (by simp)
  rw [if_neg hop] at h
  by_cases hq0 : dnsHdrU16 packetBytes 4 = 0
  · rw [if_pos hq0] at h; exact absurd h (by simp)
  rw [if_neg hq0] at h
  by_cases hq1 : dnsHdrU16 packetBytes 4 > 1
  · rw [if_pos hq1] at h; exact absurd h (by simp)
  rw [if_neg hq1] at h
  cases hq : parse_qname_from_dns_packet packetBytes 12 with
  | error e => rw [hq] at h; exact absurd h (by simp)
  | ok pr =>
    obtain ⟨qnameStr, qnameBytesLen⟩ := pr
    rw [hq] at h
    dsimp only at h
    by_cases hlen : packetBytes.length < 12 + qnameBytesLen + 4
    · rw [if_pos hlen] at h; exact absurd h (by simp)
    rw [if_neg hlen] at h
    rw [bytes_to_u16_be_drop packetBytes (12 + qnameBytesLen) (by omega),
      bytes_to_u16_be_drop packetBytes (12 + qnameBytesLen + 2) (by omega)] at h
    dsimp only at h
    by_cases hqc : dnsHdrU16 packetBytes (12 + qnameBytesLen + 2) ≠ 1
    · rw [if_pos hqc] at h; exact absurd h (by simp)
    rw [if_neg hqc] at h
    simp only [Except.ok.injEq] at h
    subst h
    push_neg at hqc
    refine ⟨by omega, rfl, by omega, by omega, by omega,
      qnameBytesLen, ?_, by omega, rfl, rfl, hqc⟩
    dsimp only

theorem parse_qname_shape (packetData : List Nat) (off : Nat) (qname : List Nat) (total : Nat)
    (h : parse_qname_from_dns_packet packetData off = .ok (qname, total)) :
    ∃ parts, parseQnameLoop (packetData.length + 1) packetData off = .ok (parts, total) ∧
      (∀ l ∈ parts, l ≠ [] ∧ l.length ≤ 63) ∧
      ((parts = [] ∧ qname = [46]) ∨ (parts ≠ [] ∧ qname = joinDots parts)) := by
  rw [parse_qname_from_dns_packet] at h
  cases hl : parseQnameLoop (packetData.length + 1) packetData off with
  | error e => rw [hl] at h; exact absurd h (by simp)
  | ok pr =>
    obtain ⟨parts, total'⟩ := pr
    rw [hl] at h
    dsimp only at h
    obtain ⟨ht, _, _, hlab⟩ := parseQnameLoop_ok _ packetData off parts total' hl
    by_cases hc : parts = [] ∧ total' = 1
    · rw [if_pos hc] at h
      simp only [Except.ok.injEq, Prod.mk.injEq] at h
      obtain ⟨hq, htot⟩ := h
      subst hq; subst htot
      exact ⟨parts, rfl, hlab, Or.inl ⟨hc.1, rfl⟩⟩
    · rw [if_neg hc] at h
      simp only [Except.ok.injEq, Prod.mk.injEq] at h
      obtain ⟨hq, htot⟩ := h
      subst hq; subst htot
      have hpne : parts ≠ [] := by
        intro hcon
        apply hc
        subst hcon
        exact ⟨rfl, by simpa [sumLen] using ht⟩
      exact ⟨parts, rfl, hlab, Or.inr ⟨hpne, rfl⟩⟩

theorem format_name_parsed (packetData : List Nat) (off : Nat) (qname : List Nat) (total : Nat)
    (h : parse_qname_from_dns_packet packetData off = .ok (qname, total)) :
    (∀ seg ∈ splitDots qname, seg.length ≤ 63) ∧
      ∃ nb, format_name_for_dns_packet qname = some nb := by
  obtain ⟨parts, hloop, hlab, hcase⟩ := parse_qname_shape packetData off qname total h
  rcases hcase with ⟨hpe, hq⟩ | ⟨hpne, hq⟩
  · subst hq
    constructor
    · intro seg hseg
      have : splitDots [46] = [[], []] := by decide
      rw [this] at hseg
      rcases List.mem_cons.mp hseg with h1 | h1
      · simp [h1]
      · simp at h1
        simp [h1]
    · exact ⟨[0], rfl⟩
  · subst hq
    have hseg63 : ∀ seg ∈ splitDots (joinDots parts), seg.length ≤ 63 := by
      rw [splitDots_joinDots _ hpne]
      intro seg hseg
      obtain ⟨p, hp, hsp⟩ := List.mem_flatMap.mp hseg
      calc seg.length ≤ p.length := splitDots_length_le p seg hsp
        _ ≤ 63 := (hlab p hp).2
    refine ⟨hseg63, ?_⟩
    by_cases hspec : joinDots parts = [46] ∨ joinDots parts = []
    · exact ⟨[0], by rw [format_name_for_dns_packet, if_pos hspec]⟩
    · rw [format_name_for_dns_packet, if_neg hspec]
      obtain ⟨r, hr⟩ := encodeLabelSeq_isSome (splitDots (joinDots parts)) hseg63
      exact ⟨r ++ [0], by rw [hr]; rfl⟩

theorem parseQnameLoop_fuel_mono :
    ∀ fuel fuel' (packetData : List Nat) pos r, fuel ≤ fuel' →
    parseQnameLoop fuel packetData pos = .ok r →
    parseQnameLoop fuel' packetData pos = .ok r := by
  intro fuel
  induction fuel with
  | zero => intro fuel' p pos r hle h; exact absurd h (by simp [parseQnameLoop])
  | succ fuel ih =>
    intro fuel' packetData pos r hle h
    obtain ⟨fuel'', rfl⟩ : ∃ k, fuel' = k + 1 := ⟨fuel' - 1, by omega⟩
    rw [parseQnameLoop] at h ⊢
    by_cases h0 : pos ≥ packetData.length
    · rw [if_pos h0] at h; exact absurd h (by simp)
    rw [if_neg h0] at h ⊢
    by_cases h1 : packetData.getD pos 0 &&& 0xC0 = 0xC0
    · rw [if_pos h1] at h; exact absurd h (by simp)
    rw [if_neg h1] at h ⊢
    by_cases h2 : packetData.getD pos 0 = 0
    · rw [if_pos h2] at h ⊢; exact h
    rw [if_neg h2] at h ⊢
    by_cases h3 : packetData.getD pos 0 > 63
    · rw [if_pos h3] at h; exact absurd h (by simp)
    rw [if_neg h3] at h ⊢
    by_cases h4 : pos + 1 + packetData.getD pos 0 > packetData.length
    · rw [if_pos h4] at h; exact absurd h (by simp)
    rw [if_neg h4] at h ⊢
    by_cases h5 : isValidUtf8 ((packetData.drop (pos + 1)).take (packetData.getD pos 0)) = true
    · rw [if_pos h5] at h ⊢
      cases hrec : parseQnameLoop fuel packetData (pos + 1 + packetData.getD pos 0) with
      | error e => rw [hrec] at h; exact absurd h (by simp)
      | ok pr =>
        rw [hrec] at h
        rw [ih fuel'' packetData _ pr (by omega) hrec]
        exact h
    · rw [if_neg h5] at h; exact absurd h (by simp)

theorem parseQnameLoop_append :
    ∀ fuel (packetData extra : List Nat) pos r,
    parseQnameLoop fuel packetData pos = .ok r →
    parseQnameLoop fuel (packetData ++ extra) pos = .ok r := by
  intro fuel
  induction fuel with
  | zero => intro p e pos r h; exact absurd h (by simp [parseQnameLoop])
  | succ fuel ih =>
    intro packetData extra pos r h
    rw [parseQnameLoop] at h ⊢
    by_cases h0 : pos ≥ packetData.length
    · rw [if_pos h0] at h; exact absurd h (by simp)
    have h0' : ¬ pos ≥ (packetData ++ extra).length := by
      simp only [List.length_append]
      omega
    rw [if_neg h0] at h
    rw [if_neg h0']
    have hgd : (packetData ++ extra).getD pos 0 = packetData.getD pos 0 := by
      simp only [List.getD_eq_getElem?_getD, List.getElem?_append_left (by omega :
        pos < packetData.length)]
    rw [hgd]
    by_cases h1 : packetData.getD pos 0 &&& 0xC0 = 0xC0
    · rw [if_pos h1] at h; exact absurd h (by simp)
    rw [if_neg h1] at h ⊢
    by_cases h2 : packetData.getD pos 0 = 0
    · rw [if_pos h2] at h ⊢; exact h
    rw [if_neg h2] at h ⊢
    by_cases h3 : packetData.getD pos 0 > 63
    · rw [if_pos h3] at h; exact absurd h (by simp)
    rw [if_neg h3] at h ⊢
    by_cases h4 : pos + 1 + packetData.getD pos 0 > packetData.length
    · rw [if_pos h4] at h; exact absurd h (by simp)
    have h4' : ¬ pos + 1 + packetData.getD pos 0 > (packetData ++ extra).length := by
      simp only [List.length_append]
      omega
    rw [if_neg h4] at h
    rw [if_neg h4']
    have hlb : ((packetData ++ extra).drop (pos + 1)).take (packetData.getD pos 0) =
        (packetData.drop (pos + 1)).take (packetData.getD pos 0) := by
      rw [List.drop_append_of_le_length (by omega), List.take_append_of_le_length]
      simp only [List.length_drop]
      omega
    rw [hlb]
    by_cases h5 : isValidUtf8 ((packetData.drop (pos + 1)).take (packetData.getD pos 0)) = true
    · rw [if_pos h5] at h ⊢
      cases hrec : parseQnameLoop fuel packetData (pos + 1 + packetData.getD pos 0) with
      | error e => rw [hrec] at h; exact absurd h (by simp)
      | ok pr =>
        rw [hrec] at h
        rw [ih packetData extra _ pr hrec]
        exact h
    · rw [if_neg h5] at h; exact absurd h (by simp)

theorem parse_qname_append (packetData extra : List Nat) (off : Nat) (r : List Nat × Nat)
    (h : parse_qname_from_dns_packet packetData off = .ok r) :
    parse_qname_from_dns_packet (packetData ++ extra) off = .ok r := by
  rw [parse_qname_from_dns_packet] at h ⊢
  cases hl : parseQnameLoop (packetData.length + 1) packetData off with
  | error e => rw [hl] at h; exact absurd h (by simp)
  | ok pr =>
    rw [hl] at h
    have hl2 := parseQnameLoop_append _ packetData extra off pr hl
    have hl3 := parseQnameLoop_fuel_mono _ ((packetData ++ extra).length + 1)
      (packetData ++ extra) off pr (by simp only [List.length_append]; omega) hl2
    rw [hl3]
    exact h

theorem parse_query_build (packetBytes : List Nat)
    (h12 : 12 ≤ packetBytes.length)
    (hqr : dnsHdrU16 packetBytes 2 &&& 0x8000 = 0)
    (hop : (dnsHdrU16 packetBytes 2 >>> 11) &&& 0x0F = 0)
    (hqd : dnsHdrU16 packetBytes 4 = 1)
    (qname : List Nat) (qlen : Nat)
    (hq : parse_qname_from_dns_packet packetBytes 12 = .ok (qname, qlen))
    (hlen : 12 + qlen + 4 ≤ packetBytes.length)
    (hqc : dnsHdrU16 packetBytes (12 + qlen + 2) = 1) :
    parse_dns_query_packet packetBytes =
      .ok ⟨dnsHdrU16 packetBytes 0,
        ⟨qname, dnsHdrU16 packetBytes (12 + qlen), dnsHdrU16 packetBytes (12 + qlen + 2)⟩⟩ := by
  rw [parse_dns_query_packet, if_neg (by omega)]
  have hE0 : bytes_to_u16_be packetBytes = .ok (dnsHdrU16 packetBytes 0) := by
    have hd := bytes_to_u16_be_drop packetBytes 0 (by omega)
    simpa using hd
  rw [hE0, bytes_to_u16_be_drop packetBytes 2 (by omega),
    bytes_to_u16_be_drop packetBytes 4 (by omega)]
  dsimp only
  rw [if_neg (by simp [hqr]), if_neg (by simp [hop]), if_neg (by omega), if_neg (by omega), hq]
  dsimp only
  rw [if_neg (by omega), bytes_to_u16_be_drop packetBytes (12 + qlen) (by omega),
    bytes_to_u16_be_drop packetBytes (12 + qlen + 2) (by omega)]
  dsimp only
  rw [if_neg (by simp [hqc])]

/-- C3: the query packet reader succeeds iff the packet is at least 12
bytes, the QR bit is clear, the opcode is 0, QDCOUNT is exactly 1, the
QNAME decodes, four more bytes follow it, and QCLASS is 1; on success it
yields the transaction id, decoded qname, QTYPE and QCLASS. -/
theorem parse_query_ok_iff (packetBytes : List Nat) :
    ((∃ info, parse_dns_query_packet packetBytes = .ok info) ↔
      (12 ≤ packetBytes.length ∧
       dnsHdrU16 packetBytes 2 &&& 0x8000 = 0 ∧
       (dnsHdrU16 packetBytes 2 >>> 11) &&& 0x0F = 0 ∧
       dnsHdrU16 packetBytes 4 = 1 ∧
       ∃ qname qlen, parse_qname_from_dns_packet packetBytes 12 = .ok (qname, qlen) ∧
         12 + qlen + 4 ≤ packetBytes.length ∧
         dnsHdrU16 packetBytes (12 + qlen + 2) = 1)) ∧
    (∀ info, parse_dns_query_packet packetBytes = .ok info →
      ∃ qlen, parse_qname_from_dns_packet packetBytes 12 = .ok (info.question.qname, qlen) ∧
        info.transaction_id = dnsHdrU16 packetBytes 0 ∧
        info.question.qtype = dnsHdrU16 packetBytes (12 + qlen) ∧
        info.question.qclass = 1) := by
  constructor
  · constructor
    · rintro ⟨info, hinfo⟩
      obtain ⟨h12, _, hqr, hop, hqd, qlen, hq, hlen, _, hqc, hqc1⟩ :=
        parse_query_shape packetBytes info hinfo
      exact ⟨h12, hqr, hop, hqd, info.question.qname, qlen, hq, hlen, by rw [← hqc, hqc1]⟩
    · rintro ⟨h12, hqr, hop, hqd, qname, qlen, hq, hlen, hqc⟩
      exact ⟨_, parse_query_build packetBytes h12 hqr hop hqd qname qlen hq hlen hqc⟩
  · intro info hinfo
    obtain ⟨_, htid, _, _, _, qlen, hq, _, hqt, hqc, hqc1⟩ :=
      parse_query_shape packetBytes info hinfo
    exact ⟨qlen, hq, htid, hqt, hqc1⟩

theorem parse_query_ok_iff_witness :
    (∃ info, parse_dns_query_packet
      [18, 52, 1, 0, 0, 1, 0, 0, 0, 0, 0, 0,
       5, 115, 118, 99, 45, 97, 0, 0, 1, 0, 1] = .ok info) ∧
    ∃ qlen, parse_qname_from_dns_packet
      [18, 52, 1, 0, 0, 1, 0, 0, 0, 0, 0, 0,
       5, 115, 118, 99, 45, 97, 0, 0, 1, 0, 1] 12 =
        .ok ([115, 118, 99, 45, 97], qlen) := by
  constructor
  · exact (parse_query_ok_iff
      [18, 52, 1, 0, 0, 1, 0, 0, 0, 0, 0, 0,
       5, 115, 118, 99, 45, 97, 0, 0, 1, 0, 1]).1.mpr (by
      refine ⟨by norm_num, by decide, by decide, by decide,
        [115, 118, 99, 45, 97], 7, by rfl, by norm_num, by decide⟩)
  · obtain ⟨qlen, hq, _⟩ := (parse_query_ok_iff
      [18, 52, 1, 0, 0, 1, 0, 0, 0, 0, 0, 0,
       5, 115, 118, 99, 45, 97, 0, 0, 1, 0, 1]).2
      ⟨4660, ⟨[115, 118, 99, 45, 97], 1, 1⟩⟩ (by rfl)
    exact ⟨qlen, hq⟩

/-- C10: the reader never inspects bytes beyond the first question's
QCLASS — appending any trailing bytes to an accepted packet yields the
same successful result. -/
theorem parse_query_ignores_trailing (packetBytes extra : List Nat) (info : DnsQueryInfo)
    (h : parse_dns_query_packet packetBytes = .ok info) :
    parse_dns_query_packet (packetBytes ++ extra) = .ok info := by
  obtain ⟨h12, htid, hqr, hop, hqd, qlen, hq, hlen, hqt, hqc, hqc1⟩ :=
    parse_query_shape packetBytes info h
  have hq' := parse_qname_append packetBytes extra 12 _ hq
  have hstab : ∀ off, off + 2 ≤ packetBytes.length →
      dnsHdrU16 (packetBytes ++ extra) off = dnsHdrU16 packetBytes off := by
    intro off hoff
    simp only [dnsHdrU16, List.getD_eq_getElem?_getD,
      List.getElem?_append_left (show off < packetBytes.length by omega),
      List.getElem?_append_left (show off + 1 < packetBytes.length by omega)]
  have hb := parse_query_build (packetBytes ++ extra)
    (by simp only [List.length_append]; omega)
    (by rw [hstab 2 (by omega)]; exact hqr)
    (by rw [hstab 2 (by omega)]; exact hop)
    (by rw [hstab 4 (by omega)]; exact hqd)
    info.question.qname qlen hq'
    (by simp only [List.length_append]; omega)
    (by rw [hstab (12 + qlen + 2) (by omega), ← hqc]; exact hqc1.symm ▸ hqc1)
  rw [hb]
  rw [hstab 0 (by omega), hstab (12 + qlen) (by omega), hstab (12 + qlen + 2) (by omega)]
  rw [← htid, ← hqt, ← hqc]

theorem parse_query_ignores_trailing_witness :
    parse_dns_query_packet
      ([18, 52, 1, 0, 0, 1, 0, 0, 0, 0, 0, 0,
        5, 115, 118, 99, 45, 97, 0, 0, 1, 0, 1] ++ [9, 9, 9, 9]) =
      .ok ⟨4660, ⟨[115, 118, 99, 45, 97], 1, 1⟩⟩ :=
  parse_query_ignores_trailing
    [18, 52, 1, 0, 0, 1, 0, 0, 0, 0, 0, 0,
     5, 115, 118, 99, 45, 97, 0, 0, 1, 0, 1] [9, 9, 9, 9]
    ⟨4660, ⟨[115, 118, 99, 45, 97], 1, 1⟩⟩ (by rfl)


theorem build_miss (info : DnsQueryInfo) (m : RecordTable) (nb : List Nat)
    (hnb : format_name_for_dns_packet info.question.qname = some nb)
    (hget : tableGet m (lookup_qname_key info.question.qname) = none) :
    build_dns_response_packet info m = some (dnsResponseBytes info 0 3 nb []) := by
  rw [build_dns_response_packet]
  dsimp only
  rw [hget, hnb]
  rfl

theorem build_hit_A (info : DnsQueryInfo) (m : RecordTable) (nb : List Nat)
    (ip : Ipv4Addr) (port : Nat)
    (hnb : format_name_for_dns_packet info.question.qname = some nb)
    (hget : tableGet m (lookup_qname_key info.question.qname) = some (ip, port))
    (hqt : info.question.qtype = 1) :
    build_dns_response_packet info m = some (dnsResponseBytes info 1 0 nb
      (nb ++ u16_to_bytes_be 1 ++ u16_to_bytes_be 1 ++ u32_to_bytes_be 60 ++
       u16_to_bytes_be 4 ++ ip.octets)) := by
  rw [build_dns_response_packet]
  dsimp only
  rw [hget, hnb]
  dsimp only [Option.map]
  rw [if_pos hqt]
  rfl

theorem build_hit_TXT_short (info : DnsQueryInfo) (m : RecordTable) (nb : List Nat)
    (ip : Ipv4Addr) (port : Nat)
    (hnb : format_name_for_dns_packet info.question.qname = some nb)
    (hget : tableGet m (lookup_qname_key info.question.qname) = some (ip, port))
    (hqt : info.question.qtype = 16)
    (hlen : (txtRecordString ip port).length ≤ 255) :
    build_dns_response_packet info m = some (dnsResponseBytes info 1 0 nb
      (nb ++ u16_to_bytes_be 16 ++ u16_to_bytes_be 1 ++ u32_to_bytes_be 60 ++
       u16_to_bytes_be (1 + (txtRecordString ip port).length) ++
       ((txtRecordString ip port).length % 256) :: txtRecordString ip port)) := by
  rw [build_dns_response_packet]
  dsimp only
  rw [hget, hnb]
  dsimp only [Option.map]
  rw [if_neg (by omega : ¬ info.question.qtype = 1), if_pos hqt,
    if_neg (by omega : ¬ (txtRecordString ip port).length > 255)]
  rfl

theorem build_hit_TXT_long (info : DnsQueryInfo) (m : RecordTable) (nb : List Nat)
    (ip : Ipv4Addr) (port : Nat)
    (hnb : format_name_for_dns_packet info.question.qname = some nb)
    (hget : tableGet m (lookup_qname_key info.question.qname) = some (ip, port))
    (hqt : info.question.qtype = 16)
    (hlen : (txtRecordString ip port).length > 255) :
    build_dns_response_packet info m = some (dnsResponseBytes info 0 2 nb []) := by
  rw [build_dns_response_packet]
  dsimp only
  rw [hget, hnb]
  dsimp only [Option.map]
  rw [if_neg (by omega : ¬ info.question.qtype = 1), if_pos hqt, if_pos hlen]
  rfl

theorem build_hit_other (info : DnsQueryInfo) (m : RecordTable) (nb : List Nat)
    (ip : Ipv4Addr) (port : Nat)
    (hnb : format_name_for_dns_packet info.question.qname = some nb)
    (hget : tableGet m (lookup_qname_key info.question.qname) = some (ip, port))
    (hqt1 : info.question.qtype ≠ 1) (hqt16 : info.question.qtype ≠ 16) :
    build_dns_response_packet info m = some (dnsResponseBytes info 0 0 nb []) := by
  rw [build_dns_response_packet]
  dsimp only
  rw [hget, hnb]
  dsimp only [Option.map]
  rw [if_neg hqt1, if_neg hqt16]
  rfl

/-- C9: for a query accepted by the packet reader, every dot-separated
segment of the decoded QNAME is at most 63 bytes, so the encoder's
panic branch (the `none` of `format_name_for_dns_packet`) is
unreachable and the response builder always produces a packet. -/
theorem format_panic_unreachable (packetBytes : List Nat) (info : DnsQueryInfo)
    (h : parse_dns_query_packet packetBytes = .ok info) :
    (∀ seg ∈ splitDots info.question.qname, seg.length ≤ 63) ∧
    (∃ nb, format_name_for_dns_packet info.question.qname = some nb) ∧
    ∀ m : RecordTable, (build_dns_response_packet info m).isSome = true := by
  obtain ⟨_, _, _, _, _, qlen, hq, _, _, _, _⟩ := parse_query_shape packetBytes info h
  obtain ⟨hseg, nb, hnb⟩ := format_name_parsed packetBytes 12 _ qlen hq
  refine ⟨hseg, ⟨nb, hnb⟩, ?_⟩
  intro m
  cases hget : tableGet m (lookup_qname_key info.question.qname) with
  | none => rw [build_miss info m nb hnb hget]; rfl
  | some v =>
    obtain ⟨ip, port⟩ := v
    by_cases hqt1 : info.question.qtype = 1
    · rw [build_hit_A info m nb ip port hnb hget hqt1]; rfl
    · by_cases hqt16 : info.question.qtype = 16
      · by_cases hl : (txtRecordString ip port).length > 255
        · rw [build_hit_TXT_long info m nb ip port hnb hget hqt16 hl]; rfl
        · rw [build_hit_TXT_short info m nb ip port hnb hget hqt16 (by omega)]; rfl
      · rw [build_hit_other info m nb ip port hnb hget hqt1 hqt16]; rfl

theorem format_panic_unreachable_witness :
    (∀ seg ∈ splitDots [115, 118, 99, 45, 97], seg.length ≤ 63) ∧
    (∃ nb, format_name_for_dns_packet [115, 118, 99, 45, 97] = some nb) ∧
    ∀ m : RecordTable, (build_dns_response_packet
      ⟨4660, ⟨[115, 118, 99, 45, 97], 1, 1⟩⟩ m).isSome = true := by
  have h := format_panic_unreachable
    [18, 52, 1, 0, 0, 1, 0, 0, 0, 0, 0, 0,
     5, 115, 118, 99, 45, 97, 0, 0, 1, 0, 1]
    ⟨4660, ⟨[115, 118, 99, 45, 97], 1, 1⟩⟩ (by rfl)
  exact h

/-- C1: ANCOUNT/RCODE policy of the response builder, for every parsed
query (`dnsResponseBytes info an rc nb payload` places ANCOUNT `an` and
RCODE `rc` in the header): miss → ANCOUNT 0, RCODE 3, no answer; hit
with QTYPE A → ANCOUNT 1, RCODE 0, RDLENGTH 4, RDATA the IPv4 octets;
hit with QTYPE TXT and rendered string at most 255 bytes → ANCOUNT 1,
RCODE 0, RDATA one length byte plus the string, RDLENGTH 1 + len; hit
with TXT and string longer than 255 → ANCOUNT 0, RCODE 2; hit with any
other QTYPE → ANCOUNT 0, RCODE 0.  Answers carry CLASS=1 and TTL=60. -/
theorem build_response_policy (packetBytes : List Nat) (info : DnsQueryInfo)
    (m : RecordTable) (nb : List Nat)
    (_hq : parse_dns_query_packet packetBytes = .ok info)
    (hnb : format_name_for_dns_packet info.question.qname = some nb) :
    (tableGet m (lookup_qname_key info.question.qname) = none →
      build_dns_response_packet info m = some (dnsResponseBytes info 0 3 nb [])) ∧
    (∀ ip port,
      tableGet m (lookup_qname_key info.question.qname) = some (ip, port) →
      (info.question.qtype = 1 →
        build_dns_response_packet info m = some (dnsResponseBytes info 1 0 nb
          (nb ++ u16_to_bytes_be 1 ++ u16_to_bytes_be 1 ++ u32_to_bytes_be 60 ++
           u16_to_bytes_be 4 ++ ip.octets))) ∧
      (info.question.qtype = 16 → (txtRecordString ip port).length ≤ 255 →
        build_dns_response_packet info m = some (dnsResponseBytes info 1 0 nb
          (nb ++ u16_to_bytes_be 16 ++ u16_to_bytes_be 1 ++ u32_to_bytes_be 60 ++
           u16_to_bytes_be (1 + (txtRecordString ip port).length) ++
           ((txtRecordString ip port).length % 256) :: txtRecordString ip port))) ∧
      (info.question.qtype = 16 → (txtRecordString ip port).length > 255 →
        build_dns_response_packet info m = some (dnsResponseBytes info 0 2 nb [])) ∧
      (info.question.qtype ≠ 1 → info.question.qtype ≠ 16 →
        build_dns_response_packet info m = some (dnsResponseBytes info 0 0 nb []))) := by
  refine ⟨fun hget => build_miss info m nb hnb hget, fun ip port hget => ?_⟩
  exact ⟨fun hqt => build_hit_A info m nb ip port hnb hget hqt,
    fun hqt hl => build_hit_TXT_short info m nb ip port hnb hget hqt hl,
    fun hqt hl => build_hit_TXT_long info m nb ip port hnb hget hqt hl,
    fun h1 h16 => build_hit_other info m nb ip port hnb hget h1 h16⟩

theorem build_response_policy_witness :
    build_dns_response_packet ⟨4660, ⟨[115, 118, 99, 45, 97], 1, 1⟩⟩
        [([115, 118, 99, 45, 97], (⟨10, 0, 0, 5⟩, 80))] =
      some (dnsResponseBytes ⟨4660, ⟨[115, 118, 99, 45, 97], 1, 1⟩⟩ 1 0
        [5, 115, 118, 99, 45, 97, 0]
        ([5, 115, 118, 99, 45, 97, 0] ++ u16_to_bytes_be 1 ++ u16_to_bytes_be 1 ++
         u32_to_bytes_be 60 ++ u16_to_bytes_be 4 ++ Ipv4Addr.octets ⟨10, 0, 0, 5⟩)) := by
  have h := build_response_policy
    [18, 52, 1, 0, 0, 1, 0, 0, 0, 0, 0, 0,
     5, 115, 118, 99, 45, 97, 0, 0, 1, 0, 1]
    ⟨4660, ⟨[115, 118, 99, 45, 97], 1, 1⟩⟩
    [([115, 118, 99, 45, 97], (⟨10, 0, 0, 5⟩, 80))]
    [5, 115, 118, 99, 45, 97, 0] (by rfl) (by rfl)
  exact (h.2 ⟨10, 0, 0, 5⟩ 80 (by rfl)).1 rfl

theorem encodeParts_length (parts : List (List Nat)) :
    (encodeParts parts).length = sumLen parts := by
  induction parts with
  | nil => rfl
  | cons l ls ih =>
    simp only [encodeParts, sumLen, List.length_cons, List.length_append, ih]
    omega

theorem build_some_shape (info : DnsQueryInfo) (m : RecordTable) (nb : List Nat)
    (hnb : format_name_for_dns_packet info.question.qname = some nb) :
    ∃ an rc payload,
      build_dns_response_packet info m = some (dnsResponseBytes info an rc nb payload) := by
  cases hget : tableGet m (lookup_qname_key info.question.qname) with
  | none => exact ⟨0, 3, [], build_miss info m nb hnb hget⟩
  | some v =>
    obtain ⟨ip, port⟩ := v
    by_cases hqt1 : info.question.qtype = 1
    · exact ⟨1, 0, _, build_hit_A info m nb ip port hnb hget hqt1⟩
    · by_cases hqt16 : info.question.qtype = 16
      · by_cases hl : (txtRecordString ip port).length > 255
        · exact ⟨0, 2, [], build_hit_TXT_long info m nb ip port hnb hget hqt16 hl⟩
        · exact ⟨1, 0, _, build_hit_TXT_short info m nb ip port hnb hget hqt16 (by omega)⟩
      · exact ⟨0, 0, [], build_hit_other info m nb ip port hnb hget hqt1 hqt16⟩

theorem dnsResponseBytes_drop12 (info : DnsQueryInfo) (an rc : Nat) (nb payload : List Nat) :
    (dnsResponseBytes info an rc nb payload).drop 12 =
      nb ++ u16_to_bytes_be info.question.qtype ++
        u16_to_bytes_be info.question.qclass ++ payload := rfl

theorem dnsResponseBytes_qdcount (info : DnsQueryInfo) (an rc : Nat) (nb payload : List Nat) :
    ((dnsResponseBytes info an rc nb payload).drop 4).take 2 = u16_to_bytes_be 1 := rfl

theorem take_four_getD (pkt : List Nat) (n : Nat) (h : n + 4 ≤ pkt.length) :
    (pkt.drop n).take 4 = [pkt.getD n 0, pkt.getD (n + 1) 0,
      pkt.getD (n + 2) 0, pkt.getD (n + 3) 0] := by
  have h0 : n < pkt.length := by omega
  have h1 : n + 1 < pkt.length := by omega
  have h2 : n + 2 < pkt.length := by omega
  have h3 : n + 3 < pkt.length := by omega
  have e0 : pkt.getD n 0 = pkt[n] := by
    simp [List.getD_eq_getElem?_getD, List.getElem?_eq_getElem h0]
  have e1 : pkt.getD (n + 1) 0 = pkt[n + 1] := by
    simp [List.getD_eq_getElem?_getD, List.getElem?_eq_getElem h1]
  have e2 : pkt.getD (n + 2) 0 = pkt[n + 2] := by
    simp [List.getD_eq_getElem?_getD, List.getElem?_eq_getElem h2]
  have e3 : pkt.getD (n + 3) 0 = pkt[n + 3] := by
    simp [List.getD_eq_getElem?_getD, List.getElem?_eq_getElem h3]
  rw [e0, e1, e2, e3]
  apply List.ext_getElem
  · simp only [List.length_take, List.length_drop, List.length_cons, List.length_nil]
    omega
  · intro i hi hi2
    simp only [List.getElem_take, List.getElem_drop]
    have hi4 : i < 4 := by simpa using hi2
    interval_cases i <;> simp

theorem u16be_dnsHdr (pkt : List Nat) (n : Nat)
    (h0 : pkt.getD n 0 < 256) (h1 : pkt.getD (n + 1) 0 < 256) :
    u16_to_bytes_be (dnsHdrU16 pkt n) = [pkt.getD n 0, pkt.getD (n + 1) 0] := by
  simp only [u16_to_bytes_be, dnsHdrU16, List.cons.injEq, and_true]
  exact ⟨by omega, by omega⟩

/-- C2 (amended): every response has QDCOUNT=1 and carries the question
re-encoded from the decoded dotted QNAME (plus the original QTYPE and
QCLASS); the re-encoding coincides byte-for-byte with the original
question-section bytes whenever no wire label contains a dot byte. -/
theorem response_question_echo (packetBytes : List Nat) (info : DnsQueryInfo)
    (m : RecordTable) (resp : List Nat)
    (hq : parse_dns_query_packet packetBytes = .ok info)
    (hb : build_dns_response_packet info m = some resp)
    (hbytes : ∀ b ∈ packetBytes, b < 256) :
    ((resp.drop 4).take 2 = u16_to_bytes_be 1) ∧
    (∃ nb qlen, format_name_for_dns_packet info.question.qname = some nb ∧
      parse_qname_from_dns_packet packetBytes 12 = .ok (info.question.qname, qlen) ∧
      (resp.drop 12).take (nb.length + 4) =
        nb ++ u16_to_bytes_be info.question.qtype ++
          u16_to_bytes_be info.question.qclass ∧
      (∀ parts, parseQnameLoop (packetBytes.length + 1) packetBytes 12 = .ok (parts, qlen) →
        (∀ l ∈ parts, ¬ 46 ∈ l) →
        (resp.drop 12).take (qlen + 4) = (packetBytes.drop 12).take (qlen + 4))) := by
  obtain ⟨h12, _, _, _, _, qlen, hq12, hlen, hqt, hqc, _⟩ := parse_query_shape packetBytes info hq
  obtain ⟨_, nb, hnb⟩ := format_name_parsed packetBytes 12 _ qlen hq12
  obtain ⟨an, rc, payload, hshape⟩ := build_some_shape info m nb hnb
  rw [hb] at hshape
  have hresp : resp = dnsResponseBytes info an rc nb payload := Option.some.inj hshape
  subst hresp
  refine ⟨dnsResponseBytes_qdcount info an rc nb payload, nb, qlen, hnb, hq12, ?_, ?_⟩
  · rw [dnsResponseBytes_drop12]
    rw [show nb.length + 4 = nb.length + 4 from rfl]
    have h4 : nb ++ u16_to_bytes_be info.question.qtype ++
        u16_to_bytes_be info.question.qclass ++ payload =
        nb ++ (u16_to_bytes_be info.question.qtype ++
          (u16_to_bytes_be info.question.qclass ++ payload)) := by
      simp [List.append_assoc]
    rw [h4, List.take_append]
    simp [u16_to_bytes_be, List.append_assoc]
  · intro parts hloop hdot
    obtain ⟨parts', hloop', hlab', hcase'⟩ := parse_qname_shape packetBytes 12 _ qlen hq12
    rw [hloop] at hloop'
    simp only [Except.ok.injEq, Prod.mk.injEq] at hloop'
    obtain ⟨hpp, -⟩ := hloop'
    subst hpp
    obtain ⟨hql, hbound, hwire, -⟩ := parseQnameLoop_ok _ packetBytes 12 parts qlen hloop
    have hnbe : nb = encodeParts parts := by
      rcases hcase' with ⟨hpe, hqn⟩ | ⟨hpne, hqn⟩
      · subst hpe
        rw [hqn] at hnb
        have h0 : format_name_for_dns_packet [46] = some [0] := rfl
        rw [h0] at hnb
        exact (Option.some.inj hnb).symm
      · rw [hqn] at hnb
        rw [format_name_of_clean_parts parts hlab' hdot hpne] at hnb
        exact (Option.some.inj hnb).symm
    have hnblen : nb.length = qlen := by
      rw [hnbe, encodeParts_length, ← hql]
    have hbnd : ∀ k, k < packetBytes.length → packetBytes.getD k 0 < 256 := by
      intro k hk
      have hg : packetBytes.getD k 0 = packetBytes[k] := by
        simp [List.getD_eq_getElem?_getD, List.getElem?_eq_getElem hk]
      rw [hg]
      exact hbytes _ (packetBytes.getElem_mem hk)
    have hqt16 : u16_to_bytes_be info.question.qtype =
        [packetBytes.getD (12 + qlen) 0, packetBytes.getD (12 + qlen + 1) 0] := by
      rw [hqt]
      exact u16be_dnsHdr packetBytes (12 + qlen) (hbnd _ (by omega)) (hbnd _ (by omega))
    have hqc16 : u16_to_bytes_be info.question.qclass =
        [packetBytes.getD (12 + qlen + 2) 0, packetBytes.getD (12 + qlen + 3) 0] := by
      rw [hqc]
      exact u16be_dnsHdr packetBytes (12 + qlen + 2) (hbnd _ (by omega)) (hbnd _ (by omega))
    rw [dnsResponseBytes_drop12]
    have hassoc : nb ++ u16_to_bytes_be info.question.qtype ++
        u16_to_bytes_be info.question.qclass ++ payload =
        nb ++ (u16_to_bytes_be info.question.qtype ++
          (u16_to_bytes_be info.question.qclass ++ payload)) := by
      simp [List.append_assoc]
    rw [hassoc, ← hnblen, List.take_append, List.take_add, List.drop_drop, hnblen, hwire,
      ← hnbe]
    rw [take_four_getD packetBytes (12 + qlen) (by omega), hqt16, hqc16]
    simp

theorem tableGet_insert (m : RecordTable) (k key : List Nat) (v : Ipv4Addr × Nat) :
    tableGet (tableInsert m k v) key = if key = k then some v else tableGet m key := by
  simp only [tableGet, tableInsert, List.lookup]
  by_cases h : key = k
  · simp [h]
  · simp [h, beq_false_of_ne h]

theorem tagsFold_get (tags : List (List Nat)) (m0 : RecordTable) (val : Ipv4Addr × Nat)
    (key : List Nat) (v : Ipv4Addr × Nat)
    (h : tableGet (tags.foldl (fun m' t => tableInsert m' (normalized_dns_key t) val) m0)
      key = some v) :
    (∃ t ∈ tags, key = normalized_dns_key t ∧ v = val) ∨ tableGet m0 key = some v := by
  induction tags generalizing m0 with
  | nil => exact Or.inr h
  | cons t ts ih =>
    simp only [List.foldl_cons] at h
    rcases ih _ h with ⟨t', ht', hk, hv⟩ | h0
    · exact Or.inl ⟨t', List.mem_cons_of_mem t ht', hk, hv⟩
    · rw [tableGet_insert] at h0
      by_cases hk : key = normalized_dns_key t
      · rw [if_pos hk] at h0
        exact Or.inl ⟨t, List.mem_cons_self t ts, hk, (Option.some.inj h0).symm⟩
      · rw [if_neg hk] at h0
        exact Or.inr h0

theorem buildFold_get (configs : List ExtractedInfo) (m0 : RecordTable)
    (key : List Nat) (v : Ipv4Addr × Nat)
    (h : tableGet (configs.foldl (fun m configItem =>
        match parseIpv4 configItem.ip with
        | none => m
        | some ipAddrObj =>
          configItem.tags.foldl (fun m' tagString =>
            tableInsert m' (normalized_dns_key tagString)
              (ipAddrObj, intToU16 configItem.port)) m) m0) key = some v) :
    (∃ r ∈ configs, ∃ ip, parseIpv4 r.ip = some ip ∧ v = (ip, intToU16 r.port) ∧
      ∃ t ∈ r.tags, key = normalized_dns_key t) ∨ tableGet m0 key = some v := by
  induction configs generalizing m0 with
  | nil => exact Or.inr h
  | cons c cs ih =>
    simp only [List.foldl_cons] at h
    rcases ih _ h with ⟨r, hr, rest⟩ | h0
    · exact Or.inl ⟨r, List.mem_cons_of_mem c hr, rest⟩
    · cases hip : parseIpv4 c.ip with
      | none => rw [hip] at h0; exact Or.inr h0
      | some ip =>
        rw [hip] at h0
        rcases tagsFold_get c.tags m0 (ip, intToU16 c.port) key v h0 with ⟨t, ht, hk, hv⟩ | h1
        · exact Or.inl ⟨c, List.mem_cons_self c cs, ip, hip, hv, t, ht, hk⟩
        · exact Or.inr h1

theorem tableGet_build_some (configs : List ExtractedInfo) (key : List Nat)
    (v : Ipv4Addr × Nat)
    (h : tableGet (build_record_table configs) key = some v) :
    ∃ r ∈ configs, ∃ ip, parseIpv4 r.ip = some ip ∧ v = (ip, intToU16 r.port) ∧
      ∃ t ∈ r.tags, key = normalized_dns_key t := by
  rw [build_record_table] at h
  rcases buildFold_get configs [] key v h with hres | h0
  · exact hres
  · exact absurd h0 (by simp [tableGet])

theorem tableGet_insert_isSome (m : RecordTable) (k key : List Nat) (v : Ipv4Addr × Nat)
    (h : (tableGet m key).isSome = true) :
    (tableGet (tableInsert m k v) key).isSome = true := by
  rw [tableGet_insert]
  by_cases hk : key = k
  · simp [hk]
  · simp [hk, h]

theorem tagsFold_isSome_mono (tags : List (List Nat)) (m0 : RecordTable)
    (val : Ipv4Addr × Nat) (key : List Nat)
    (h : (tableGet m0 key).isSome = true) :
    (tableGet (tags.foldl (fun m' t => tableInsert m' (normalized_dns_key t) val) m0)
      key).isSome = true := by
  induction tags generalizing m0 with
  | nil => exact h
  | cons t ts ih => exact ih _ (tableGet_insert_isSome m0 _ key val h)

theorem tagsFold_present (tags : List (List Nat)) (m0 : RecordTable)
    (val : Ipv4Addr × Nat) (t : List Nat) (ht : t ∈ tags) :
    (tableGet (tags.foldl (fun m' t' => tableInsert m' (normalized_dns_key t') val) m0)
      (normalized_dns_key t)).isSome = true := by
  induction tags generalizing m0 with
  | nil => exact absurd ht (by simp)
  | cons t' ts ih =>
    rcases List.mem_cons.mp ht with h | h
    · subst h
      simp only [List.foldl_cons]
      apply tagsFold_isSome_mono
      rw [tableGet_insert, if_pos rfl]
      rfl
    · simp only [List.foldl_cons]
      exact ih _ h

theorem buildFold_isSome_mono (configs : List ExtractedInfo) (m0 : RecordTable)
    (key : List Nat) (h : (tableGet m0 key).isSome = true) :
    (tableGet (configs.foldl (fun m configItem =>
        match parseIpv4 configItem.ip with
        | none => m
        | some ipAddrObj =>
          configItem.tags.foldl (fun m' tagString =>
            tableInsert m' (normalized_dns_key tagString)
              (ipAddrObj, intToU16 configItem.port)) m) m0) key).isSome = true := by
  induction configs generalizing m0 with
  | nil => exact h
  | cons c cs ih =>
    simp only [List.foldl_cons]
    apply ih
    cases hip : parseIpv4 c.ip with
    | none => exact h
    | some ip => exact tagsFold_isSome_mono c.tags m0 _ key h

theorem buildFold_present (configs : List ExtractedInfo) (m0 : RecordTable)
    (r : ExtractedInfo) (t : List Nat) (hr : r ∈ configs) (ht : t ∈ r.tags)
    (hip : (parseIpv4 r.ip).isSome = true) :
    (tableGet (configs.foldl (fun m configItem =>
        match parseIpv4 configItem.ip with
        | none => m
        | some ipAddrObj =>
          configItem.tags.foldl (fun m' tagString =>
            tableInsert m' (normalized_dns_key tagString)
              (ipAddrObj, intToU16 configItem.port)) m) m0)
      (normalized_dns_key t)).isSome = true := by
  induction configs generalizing m0 with
  | nil => exact absurd hr (by simp)
  | cons c cs ih =>
    simp only [List.foldl_cons]
    rcases List.mem_cons.mp hr with h | h
    · subst h
      apply buildFold_isSome_mono
      cases hips : parseIpv4 r.ip with
      | none => rw [hips] at hip; exact absurd hip (by simp)
      | some ip => exact tagsFold_present r.tags m0 _ t ht
    · exact ih _ h

theorem tableGet_build_present (configs : List ExtractedInfo) (r : ExtractedInfo)
    (t : List Nat) (hr : r ∈ configs) (ht : t ∈ r.tags)
    (hip : (parseIpv4 r.ip).isSome = true) :
    (tableGet (build_record_table configs) (normalized_dns_key t)).isSome = true := by
  rw [build_record_table]
  exact buildFold_present configs [] r t hr ht hip

theorem rustToLowercase_ne_nil (s : List Nat) (h : s ≠ []) : rustToLowercase s ≠ [] := by
  match s with
  | [] => exact absurd rfl h
  | [b] =>
    rw [rustToLowercase]
    split
    · simp
    · split <;> simp
  | b :: c :: rest =>
    rw [rustToLowercase]
    split
    · split <;> simp
    · split <;> simp

theorem rustToLowercase_no_upper (s : List Nat) :
    ∀ b ∈ rustToLowercase s, ¬ (65 ≤ b ∧ b ≤ 90) := by
  have main : ∀ n (s : List Nat), s.length ≤ n →
      ∀ b ∈ rustToLowercase s, ¬ (65 ≤ b ∧ b ≤ 90) := by
    intro n
    induction n with
    | zero =>
      intro s hs
      have : s = [] := List.length_eq_zero.mp (by omega)
      subst this
      simp [rustToLowercase]
    | succ n ih =>
      intro s hs
      match s with
      | [] => simp [rustToLowercase]
      | [a] =>
        rw [rustToLowercase]
        by_cases ha : a = 195
        · rw [if_pos ha]
          intro b hb
          simp at hb
          omega
        · rw [if_neg ha]
          by_cases hup : 65 ≤ a ∧ a ≤ 90
          · rw [if_pos hup]
            intro b hb
            simp at hb
            omega
          · rw [if_neg hup]
            intro b hb
            simp at hb
            omega
      | a :: c :: rest =>
        simp only [List.length_cons] at hs
        rw [rustToLowercase]
        by_cases ha : a = 195
        · rw [if_pos ha]
          by_cases hc : 128 ≤ c ∧ c ≤ 158 ∧ c ≠ 151
          · rw [if_pos hc]
            intro b hb
            rcases List.mem_cons.mp hb with h1 | hb
            · omega
            rcases List.mem_cons.mp hb with h1 | hb
            · omega
            · exact ih rest (by omega) b hb
          · rw [if_neg hc]
            intro b hb
            rcases List.mem_cons.mp hb with h1 | hb
            · omega
            · exact ih (c :: rest) (by simp only [List.length_cons] at hs ⊢; omega) b hb
        · rw [if_neg ha]
          by_cases hup : 65 ≤ a ∧ a ≤ 90
          · rw [if_pos hup]
            intro b hb
            rcases List.mem_cons.mp hb with h1 | hb
            · omega
            · exact ih (c :: rest) (by simp only [List.length_cons] at hs ⊢; omega) b hb
          · rw [if_neg hup]
            intro b hb
            rcases List.mem_cons.mp hb with h1 | hb
            · omega
            · exact ih (c :: rest) (by simp only [List.length_cons] at hs ⊢; omega) b hb
  exact main s.length s le_rfl

theorem rustToLowercase_last_dot (s : List Nat) :
    (rustToLowercase s).getLast? = some 46 ↔ s.getLast? = some 46 := by
  have main : ∀ n (s : List Nat), s.length ≤ n →
      ((rustToLowercase s).getLast? = some 46 ↔ s.getLast? = some 46) := by
    intro n
    induction n with
    | zero =>
      intro s hs
      have : s = [] := List.length_eq_zero.mp (by omega)
      subst this
      simp [rustToLowercase]
    | succ n ih =>
      intro s hs
      match s with
      | [] => simp [rustToLowercase]
      | [a] =>
        rw [rustToLowercase]
        by_cases ha : a = 195
        · rw [if_pos ha]
          subst ha
          simp
        · rw [if_neg ha]
          by_cases hup : 65 ≤ a ∧ a ≤ 90
          · rw [if_pos hup]
            simp only [List.getLast?_singleton, Option.some.injEq]
            omega
          · rw [if_neg hup]
      | a :: c :: rest =>
        simp only [List.length_cons] at hs
        rw [rustToLowercase]
        by_cases ha : a = 195
        · rw [if_pos ha]
          by_cases hc : 128 ≤ c ∧ c ≤ 158 ∧ c ≠ 151
          · rw [if_pos hc]
            match rest with
            | [] =>
              simp only [rustToLowercase, List.getLast?_cons_cons,
                List.getLast?_singleton, Option.some.injEq]
              omega
            | r :: rs =>
              obtain ⟨fh, ft, hf⟩ : ∃ fh ft, rustToLowercase (r :: rs) = fh :: ft := by
                have := rustToLowercase_ne_nil (r :: rs) (by simp)
                cases hfr : rustToLowercase (r :: rs) with
                | nil => exact absurd hfr this
                | cons fh ft => exact ⟨fh, ft, rfl⟩
              rw [hf, List.getLast?_cons_cons, List.getLast?_cons_cons, ← hf,
                List.getLast?_cons_cons]
              exact ih (r :: rs) (by simp only [List.length_cons] at hs ⊢; omega)
          · rw [if_neg hc]
            obtain ⟨fh, ft, hf⟩ : ∃ fh ft, rustToLowercase (c :: rest) = fh :: ft := by
              have := rustToLowercase_ne_nil (c :: rest) (by simp)
              cases hfr : rustToLowercase (c :: rest) with
              | nil => exact absurd hfr this
              | cons fh ft => exact ⟨fh, ft, rfl⟩
            rw [hf, List.getLast?_cons_cons, ← hf, List.getLast?_cons_cons]
            exact ih (c :: rest) (by simp only [List.length_cons] at hs ⊢; omega)
        · rw [if_neg ha]
          obtain ⟨fh, ft, hf⟩ : ∃ fh ft, rustToLowercase (c :: rest) = fh :: ft := by
            have := rustToLowercase_ne_nil (c :: rest) (by simp)
            cases hfr : rustToLowercase (c :: rest) with
            | nil => exact absurd hfr this
            | cons fh ft => exact ⟨fh, ft, rfl⟩
          by_cases hup : 65 ≤ a ∧ a ≤ 90
          · rw [if_pos hup, hf, List.getLast?_cons_cons, ← hf, List.getLast?_cons_cons]
            exact ih (c :: rest) (by simp only [List.length_cons] at hs ⊢; omega)
          · rw [if_neg hup, hf, List.getLast?_cons_cons, ← hf, List.getLast?_cons_cons]
            exact ih (c :: rest) (by simp only [List.length_cons] at hs ⊢; omega)
  exact main s.length s le_rfl

theorem strip_last_dot (t : List Nat)
    (h : (stripDotSuffix t).getLast? = some 46) :
    t.getLast? = some 46 ∧ t.dropLast.getLast? = some 46 := by
  rw [stripDotSuffix] at h
  by_cases hc : t.getLast? = some 46
  · rw [if_pos hc] at h
    exact ⟨hc, h⟩
  · rw [if_neg hc] at h
    exact absurd h hc

theorem stripDotSuffix_subset (s : List Nat) : ∀ b ∈ stripDotSuffix s, b ∈ s := by
  intro b hb
  rw [stripDotSuffix] at hb
  split at hb
  · exact List.dropLast_subset s hb
  · exact hb

/-- C4 (amended): every record-table key contains no ASCII uppercase
letter; a key ends in a dot only when the tag it came from ended in at
least two dots (only one trailing dot is stripped). -/
theorem table_keys_normalized (configs : List ExtractedInfo) (key : List Nat)
    (v : Ipv4Addr × Nat)
    (h : tableGet (build_record_table configs) key = some v) :
    (∀ b ∈ key, ¬ (65 ≤ b ∧ b ≤ 90)) ∧
    (key.getLast? = some 46 →
      ∃ r ∈ configs, ∃ t ∈ r.tags, key = normalized_dns_key t ∧
        t.getLast? = some 46 ∧ t.dropLast.getLast? = some 46) := by
  obtain ⟨r, hr, ip, hip, hv, t, ht, hk⟩ := tableGet_build_some configs key v h
  constructor
  · rw [hk]
    exact rustToLowercase_no_upper _
  · intro hdot
    rw [hk, normalized_dns_key, rustToLowercase_last_dot] at hdot
    exact ⟨r, hr, t, ht, hk, strip_last_dot t hdot⟩

theorem table_keys_normalized_witness :
    (∀ b ∈ [97, 46], ¬ (65 ≤ b ∧ b ≤ 90)) ∧
    ([97, 46].getLast? = some 46 →
      ∃ r ∈ [(⟨[[97, 46, 46]], [49, 46, 50, 46, 51, 46, 52], 80⟩ : ExtractedInfo)],
        ∃ t ∈ r.tags, [97, 46] = normalized_dns_key t ∧
          t.getLast? = some 46 ∧ t.dropLast.getLast? = some 46) :=
  table_keys_normalized [⟨[[97, 46, 46]], [49, 46, 50, 46, 51, 46, 52], 80⟩]
    [97, 46] (⟨1, 2, 3, 4⟩, 80) (by rfl)

theorem table_key_trailing_dot_counterexample :
    tableGet (build_record_table [⟨[[97, 46, 46]], [49, 46, 50, 46, 51, 46, 52], 80⟩])
        [97, 46] = some (⟨1, 2, 3, 4⟩, 80) ∧
      [97, 46].getLast? = some 46 := ⟨rfl, rfl⟩

/-- C8: every port stored in the record table is the originating
record's signed 32-bit port reduced modulo 2^16 (two's-complement
narrowing to `u16`): out-of-range values wrap instead of being
rejected. -/
theorem table_port_narrowing (configs : List ExtractedInfo) (key : List Nat)
    (ip : Ipv4Addr) (p : Nat)
    (h : tableGet (build_record_table configs) key = some (ip, p)) :
    ∃ r ∈ configs, parseIpv4 r.ip = some ip ∧ p = intToU16 r.port ∧
      (p : Int) = r.port % 65536 ∧ p < 65536 ∧
      ∃ t ∈ r.tags, key = normalized_dns_key t := by
  obtain ⟨r, hr, ip', hip, hv, t, ht, hk⟩ := tableGet_build_some configs key (ip, p) h
  obtain ⟨hip_eq, hp_eq⟩ := Prod.mk.injEq _ _ _ _ ▸ hv
  refine ⟨r, hr, by rw [hip_eq]; exact hip, hp_eq, ?_, ?_, t, ht, hk⟩
  · rw [hp_eq, intToU16]
    have hnn : (0 : Int) ≤ r.port % 65536 := Int.emod_nonneg r.port (by norm_num)
    omega
  · rw [hp_eq, intToU16]
    have hlt : r.port % 65536 < 65536 := Int.emod_lt_of_pos r.port (by norm_num)
    have hnn : (0 : Int) ≤ r.port % 65536 := Int.emod_nonneg r.port (by norm_num)
    omega

theorem table_port_narrowing_witness :
    ∃ r ∈ [(⟨[[97]], [49, 46, 50, 46, 51, 46, 52], 70000⟩ : ExtractedInfo)],
      parseIpv4 r.ip = some ⟨1, 2, 3, 4⟩ ∧ 4464 = intToU16 r.port ∧
      ((4464 : Nat) : Int) = r.port % 65536 ∧ 4464 < 65536 ∧
      ∃ t ∈ r.tags, [97] = normalized_dns_key t :=
  table_port_narrowing [⟨[[97]], [49, 46, 50, 46, 51, 46, 52], 70000⟩]
    [97] ⟨1, 2, 3, 4⟩ 4464 (by rfl)



theorem asciiCaseEqByte_high (a b : Nat) (ha : 128 ≤ a)
    (h : asciiCaseEqByte a b = true) : b = a := by
  simp only [asciiCaseEqByte, Bool.or_eq_true, Bool.and_eq_true, beq_iff_eq,
    decide_eq_true_eq] at h
  rcases h with (h | ⟨⟨h1, h2⟩, h3⟩) | ⟨⟨h1, h2⟩, h3⟩ <;> omega

theorem asciiCaseEqByte_high' (a b : Nat) (hb : 128 ≤ b)
    (h : asciiCaseEqByte a b = true) : a = b := by
  simp only [asciiCaseEqByte, Bool.or_eq_true, Bool.and_eq_true, beq_iff_eq,
    decide_eq_true_eq] at h
  rcases h with (h | ⟨⟨h1, h2⟩, h3⟩) | ⟨⟨h1, h2⟩, h3⟩ <;> omega

theorem asciiCaseEqByte_fold (a b : Nat) (h : asciiCaseEqByte a b = true) :
    (if 65 ≤ a ∧ a ≤ 90 then a + 32 else a) = (if 65 ≤ b ∧ b ≤ 90 then b + 32 else b) := by
  simp only [asciiCaseEqByte, Bool.or_eq_true, Bool.and_eq_true, beq_iff_eq,
    decide_eq_true_eq] at h
  rcases h with (h | ⟨⟨h1, h2⟩, h3⟩) | ⟨⟨h1, h2⟩, h3⟩
  · rw [h]
  · rw [if_pos ⟨h1, h2⟩, if_neg (by omega), h3]
  · rw [if_neg (by omega), if_pos ⟨h1, h2⟩, h3]

theorem asciiCaseEq_fold (s t : List Nat) (h : asciiCaseEq s t = true) :
    rustToLowercase s = rustToLowercase t := by
  have main : ∀ n (s t : List Nat), s.length ≤ n → asciiCaseEq s t = true →
      rustToLowercase s = rustToLowercase t := by
    intro n
    induction n with
    | zero =>
      intro s t hs h
      have hse : s = [] := List.length_eq_zero.mp (by omega)
      subst hse
      cases t with
      | nil => rfl
      | cons b bs => exact absurd h (by simp [asciiCaseEq])
    | succ n ih =>
      intro s t hs h
      match s, t with
      | [], [] => rfl
      | [], b :: bs => exact absurd h (by simp [asciiCaseEq])
      | a :: as, [] => exact absurd h (by simp [asciiCaseEq])
      | [a], b :: bs =>
        simp only [asciiCaseEq, Bool.and_eq_true] at h
        obtain ⟨hab, hrest⟩ := h
        have hbs : bs = [] := by
          cases bs with
          | nil => rfl
          | cons x xs => exact absurd hrest (by simp [asciiCaseEq])
        subst hbs
        rw [rustToLowercase, rustToLowercase]
        by_cases ha : a = 195
        · subst ha
          have hb : b = 195 := asciiCaseEqByte_high 195 b (by omega) hab
          subst hb
          simp
        · have hb : ¬ b = 195 := by
            intro hb
            subst hb
            exact ha (asciiCaseEqByte_high' a 195 (by omega) hab)
          rw [if_neg ha, if_neg hb]
          have := asciiCaseEqByte_fold a b hab
          by_cases hup : 65 ≤ a ∧ a ≤ 90
          · rw [if_pos hup] at this ⊢
            by_cases hupb : 65 ≤ b ∧ b ≤ 90
            · rw [if_pos hupb] at this ⊢
              rw [this]
            · rw [if_neg hupb] at this ⊢
              rw [this]
          · rw [if_neg hup] at this ⊢
            by_cases hupb : 65 ≤ b ∧ b ≤ 90
            · rw [if_pos hupb] at this ⊢
              rw [this]
            · rw [if_neg hupb] at this ⊢
              rw [this]
      | a :: a2 :: as, b :: bs =>
        simp only [asciiCaseEq, Bool.and_eq_true] at h
        obtain ⟨hab, hrest⟩ := h
        obtain ⟨b2, bs', hbs⟩ : ∃ b2 bs', bs = b2 :: bs' := by
          cases bs with
          | nil => exact absurd hrest (by simp [asciiCaseEq])
          | cons b2 bs' => exact ⟨b2, bs', rfl⟩
        subst hbs
        simp only [asciiCaseEq, Bool.and_eq_true] at hrest
        obtain ⟨hab2, hrest2⟩ := hrest
        simp only [List.length_cons] at hs
        rw [rustToLowercase, rustToLowercase]
        by_cases ha : a = 195
        · subst ha
          have hb : b = 195 := asciiCaseEqByte_high 195 b (by omega) hab
          subst hb
          rw [if_pos rfl, if_pos rfl]
          by_cases hc : 128 ≤ a2 ∧ a2 ≤ 158 ∧ a2 ≠ 151
          · have hb2 : b2 = a2 := asciiCaseEqByte_high a2 b2 (by omega) hab2
            subst hb2
            rw [if_pos hc, if_pos hc]
            rw [ih as bs' (by omega) hrest2]
          · have hb2c : ¬ (128 ≤ b2 ∧ b2 ≤ 158 ∧ b2 ≠ 151) := by
              intro hcon
              have := asciiCaseEqByte_high' a2 b2 (by omega) hab2
              omega
            rw [if_neg hc, if_neg hb2c]
            have heq : asciiCaseEq (a2 :: as) (b2 :: bs') = true := by
              simp [asciiCaseEq, hab2, hrest2]
            rw [ih (a2 :: as) (b2 :: bs') (by simp only [List.length_cons]; omega) heq]
        · have hb : ¬ b = 195 := by
            intro hb
            subst hb
            exact ha (asciiCaseEqByte_high' a 195 (by omega) hab)
          rw [if_neg ha, if_neg hb]
          have heq : asciiCaseEq (a2 :: as) (b2 :: bs') = true := by
            simp [asciiCaseEq, hab2, hrest2]
          have hrec := ih (a2 :: as) (b2 :: bs') (by simp only [List.length_cons]; omega) heq
          have := asciiCaseEqByte_fold a b hab
          by_cases hup : 65 ≤ a ∧ a ≤ 90
          · rw [if_pos hup] at this ⊢
            by_cases hupb : 65 ≤ b ∧ b ≤ 90
            · rw [if_pos hupb] at this ⊢
              rw [this, hrec]
            · rw [if_neg hupb] at this ⊢
              rw [this, hrec]
          · rw [if_neg hup] at this ⊢
            by_cases hupb : 65 ≤ b ∧ b ≤ 90
            · rw [if_pos hupb] at this ⊢
              rw [this, hrec]
            · rw [if_neg hupb] at this ⊢
              rw [this, hrec]
  exact main s.length s t le_rfl h

theorem rustToLowercase_ascii (s : List Nat) (h : ∀ b ∈ s, b < 128) :
    rustToLowercase s = specAsciiCaseFold s := by
  have main : ∀ n (s : List Nat), s.length ≤ n → (∀ b ∈ s, b < 128) →
      rustToLowercase s = specAsciiCaseFold s := by
    intro n
    induction n with
    | zero =>
      intro s hs h
      have : s = [] := List.length_eq_zero.mp (by omega)
      subst this
      rfl
    | succ n ih =>
      intro s hs h
      match s with
      | [] => rfl
      | [a] =>
        have ha : a < 128 := h a (by simp)
        rw [rustToLowercase, if_neg (by omega : ¬ a = 195)]
        simp only [specAsciiCaseFold, List.map_cons, List.map_nil]
        split <;> rfl
      | a :: c :: rest =>
        simp only [List.length_cons] at hs
        have ha : a < 128 := h a (by simp)
        rw [rustToLowercase, if_neg (by omega : ¬ a = 195),
          ih (c :: rest) (by simp only [List.length_cons]; omega)
            (fun b hb => h b (List.mem_cons_of_mem a hb))]
        simp only [specAsciiCaseFold, List.map_cons]
        split <;> rfl
  exact main s.length s le_rfl h

theorem key_ascii_fold_counterexample :
    tableGet (build_record_table
        [⟨[[195, 137]], [49, 46, 50, 46, 51, 46, 52], 80⟩]) [195, 169] =
      some (⟨1, 2, 3, 4⟩, 80) ∧
    normalized_dns_key [195, 137] = [195, 169] ∧
    ¬ normalized_dns_key [195, 137] = specAsciiCaseFold (stripDotSuffix [195, 137]) :=
  ⟨rfl, rfl, by decide⟩

/-- C5 (amended): the table builder and the response builder derive
keys with the same reference function — strip at most one trailing dot,
then Unicode lowercasing (`str::to_lowercase`) — which agrees with the
ASCII case fold on all-ASCII names but not in general (the
counterexample maps the tag E-acute to e-acute); consequently a query
whose QNAME differs from a configured tag only in ASCII case and by one
trailing dot finds that tag's entry. -/
theorem key_derivations_agree (configs : List ExtractedInfo) (r : ExtractedInfo)
    (t q core coreT : List Nat)
    (hr : r ∈ configs) (ht : t ∈ r.tags) (hip : (parseIpv4 r.ip).isSome = true)
    (hq : q = core ∨ q = core ++ [46]) (htc : t = coreT ∨ t = coreT ++ [46])
    (hcore : ¬ core.getLast? = some 46) (hcoreT : ¬ coreT.getLast? = some 46)
    (hcase : asciiCaseEq core coreT = true) :
    (∀ s, normalized_dns_key s = lookup_qname_key s) ∧
    (∀ s, lookup_qname_key s = rustToLowercase (stripDotSuffix s)) ∧
    (∀ s, (∀ b ∈ s, b < 128) →
      lookup_qname_key s = specAsciiCaseFold (stripDotSuffix s)) ∧
    (tableGet (build_record_table configs) (lookup_qname_key q)).isSome = true := by
  refine ⟨fun s => rfl, fun s => rfl, ?_, ?_⟩
  · intro s hs
    rw [lookup_qname_key]
    exact rustToLowercase_ascii (stripDotSuffix s)
      (fun b hb => hs b (stripDotSuffix_subset s b hb))
  · have hstrip : ∀ (x base : List Nat), (x = base ∨ x = base ++ [46]) →
        ¬ base.getLast? = some 46 → stripDotSuffix x = base := by
      intro x base hx hb
      rcases hx with rfl | rfl
      · rw [stripDotSuffix, if_neg hb]
      · rw [stripDotSuffix, if_pos (List.getLast?_concat base), List.dropLast_concat]
    have hkeyq : lookup_qname_key q = rustToLowercase core := by
      rw [lookup_qname_key, hstrip q core hq hcore]
    have hkeyt : normalized_dns_key t = rustToLowercase coreT := by
      rw [normalized_dns_key, hstrip t coreT htc hcoreT]
    rw [hkeyq, asciiCaseEq_fold core coreT hcase, ← hkeyt]
    exact tableGet_build_present configs r t hr ht hip

theorem key_derivations_agree_witness :
    (∀ s, normalized_dns_key s = lookup_qname_key s) ∧
    (∀ s, lookup_qname_key s = rustToLowercase (stripDotSuffix s)) ∧
    (∀ s, (∀ b ∈ s, b < 128) →
      lookup_qname_key s = specAsciiCaseFold (stripDotSuffix s)) ∧
    (tableGet (build_record_table
        [⟨[[83, 118, 99, 45, 65]], [49, 48, 46, 48, 46, 48, 46, 53], 80⟩])
      (lookup_qname_key [83, 86, 67, 45, 65, 46])).isSome = true :=
  key_derivations_agree
    [⟨[[83, 118, 99, 45, 65]], [49, 48, 46, 48, 46, 48, 46, 53], 80⟩]
    ⟨[[83, 118, 99, 45, 65]], [49, 48, 46, 48, 46, 48, 46, 53], 80⟩
    [83, 118, 99, 45, 65] [83, 86, 67, 45, 65, 46]
    [83, 86, 67, 45, 65] [83, 118, 99, 45, 65]
    (by simp) (by simp) (by rfl)
    (Or.inr rfl) (Or.inl rfl) (by decide) (by decide) (by decide)

/-- C6: when the `Uri` walker parses a body without error, exactly one
`ExtractedInfo` (with a copy of the inherited tags) is appended iff the
body carried both the ip and port fields; otherwise the result list is
unchanged. -/
theorem uri_walker_emits (data : List Nat) (tags : List (List Nat))
    (results results' : List ExtractedInfo)
    (h : parse_uri_message_proto data tags results = .ok results') :
    ∃ ipOpt portOpt, uriLoop (data.length + 1) data none none = .ok (ipOpt, portOpt) ∧
      ((∃ ip port, ipOpt = some ip ∧ portOpt = some port ∧
         results' = results ++ [⟨tags, ip, port⟩]) ∨
       ((ipOpt = none ∨ portOpt = none) ∧ results' = results)) := by
  rw [parse_uri_message_proto] at h
  cases hl : uriLoop (data.length + 1) data none none with
  | error e => rw [hl] at h; exact absurd h (by simp)
  | ok pr =>
    obtain ⟨ipOpt, portOpt⟩ := pr
    rw [hl] at h
    refine ⟨ipOpt, portOpt, rfl, ?_⟩
    cases ipOpt with
    | none =>
      cases portOpt with
      | none =>
        dsimp only at h
        exact Or.inr ⟨Or.inl rfl, (Except.ok.inj h).symm⟩
      | some port =>
        dsimp only at h
        exact Or.inr ⟨Or.inl rfl, (Except.ok.inj h).symm⟩
    | some ip =>
      cases portOpt with
      | none =>
        dsimp only at h
        exact Or.inr ⟨Or.inr rfl, (Except.ok.inj h).symm⟩
      | some port =>
        dsimp only at h
        exact Or.inl ⟨ip, port, rfl, rfl, (Except.ok.inj h).symm⟩

theorem uri_walker_emits_witness :
    ∃ ipOpt portOpt,
      uriLoop ([138, 128, 128, 128, 128, 1, 1, 97, 16, 80].length + 1)
        [138, 128, 128, 128, 128, 1, 1, 97, 16, 80] none none = .ok (ipOpt, portOpt) ∧
      ((∃ ip port, ipOpt = some ip ∧ portOpt = some port ∧
         [(⟨[[116]], [97], 80⟩ : ExtractedInfo)] = [] ++ [⟨[[116]], ip, port⟩]) ∨
       ((ipOpt = none ∨ portOpt = none) ∧
         [(⟨[[116]], [97], 80⟩ : ExtractedInfo)] = [])) :=
  uri_walker_emits [138, 128, 128, 128, 128, 1, 1, 97, 16, 80] [[116]]
    [] [⟨[[116]], [97], 80⟩] (by rfl)

theorem question_echo_counterexample :
    parse_dns_query_packet
        [0, 0, 0, 0, 0, 1, 0, 0, 0, 0, 0, 0, 3, 97, 46, 98, 0, 0, 1, 0, 1] =
      .ok ⟨0, ⟨[97, 46, 98], 1, 1⟩⟩ ∧
    build_dns_response_packet ⟨0, ⟨[97, 46, 98], 1, 1⟩⟩ [] =
      some [0, 0, 132, 3, 0, 1, 0, 0, 0, 0, 0, 0, 1, 97, 1, 98, 0, 0, 1, 0, 1] ∧
    ¬ ((List.drop 12 [0, 0, 132, 3, 0, 1, 0, 0, 0, 0, 0, 0, 1, 97, 1, 98, 0, 0, 1, 0, 1]).take 5 =
       (List.drop 12 [0, 0, 0, 0, 0, 1, 0, 0, 0, 0, 0, 0, 3, 97, 46, 98, 0, 0, 1, 0, 1]).take 5) :=
  ⟨rfl, rfl, by decide⟩

theorem response_question_echo_witness :
    ((List.drop 4 [18, 52, 132, 0, 0, 1, 0, 1, 0, 0, 0, 0,
        5, 115, 118, 99, 45, 97, 0, 0, 1, 0, 1,
        5, 115, 118, 99, 45, 97, 0, 0, 1, 0, 1, 0, 0, 0, 60, 0, 4, 10, 0, 0, 5]).take 2 =
      u16_to_bytes_be 1) :=
  (response_question_echo
    [18, 52, 1, 0, 0, 1, 0, 0, 0, 0, 0, 0, 5, 115, 118, 99, 45, 97, 0, 0, 1, 0, 1]
    ⟨4660, ⟨[115, 118, 99, 45, 97], 1, 1⟩⟩
    [([115, 118, 99, 45, 97], (⟨10, 0, 0, 5⟩, 80))]
    [18, 52, 132, 0, 0, 1, 0, 1, 0, 0, 0, 0,
     5, 115, 118, 99, 45, 97, 0, 0, 1, 0, 1,
     5, 115, 118, 99, 45, 97, 0, 0, 1, 0, 1, 0, 0, 0, 60, 0, 4, 10, 0, 0, 5]
    (by rfl) (by rfl) (by decide)).1
